import Mathlib

/-!
Shallow embedding of `src/data/scrape/google_news_scraper.py`.

The scraper is a single-file pipeline: fetch Google-News RSS search feeds per
label, resolve each entry link to the original publisher URL, derive a stable
id (SHA-1 of the UTF-8 URL), dedup against a ledger seeded from the append-only
JSONL log, extract text with a title+summary fallback and a minimum-length
filter, append records, and rebuild a CSV projection.

Pure computations (string cleaning, SHA-1 hashing, hex rendering, the resolve
and rebuild algorithms, the orchestration loops) are translated directly.
Effectful library calls (`requests.get` + BeautifulSoup parsing,
`trafilatura`, `feedparser.parse`, the clock) are abstracted into a `World`
record supplying their results: a fetched page is abstracted to its parse
outcome (canonical-link attribute and anchor hrefs in document order), the
extractor to an optional raw text, a feed to its entry list, so that every
control-flow decision the Python code makes on those results is reproduced.
-/

namespace GNscraper

/-! ### Python string helpers: `clean_text` (re.sub(r"\s+"," ",s).strip()) -/

/-- The whitespace characters matched by Python's `\s` on `str` (and stripped
by `str.strip()`): ASCII whitespace plus the Unicode space separators. -/
def pyWhitespace : List Char :=
  [' ', '\t', '\n', '\r', '\x0b', '\x0c',
   '\x1c', '\x1d', '\x1e', '\x1f', '\x85', '\xa0',
   ' ', ' ', ' ', ' ', ' ', ' ', ' ',
   ' ', ' ', ' ', ' ', ' ',
   ' ', ' ', ' ', ' ', '　']

def pyIsSpace (c : Char) : Bool := pyWhitespace.contains c

/-- Python `re.sub(r"\s+", " ", s)`: every maximal whitespace run becomes one space.
Folding from the right, a whitespace character merges into a space already
produced by the rest of its run and otherwise contributes one space. -/
def collapseWS (l : List Char) : List Char :=
  l.foldr
    (fun c acc =>
      if pyIsSpace c then
        match acc with
        | ' ' :: _ => acc
        | _ => ' ' :: acc
      else c :: acc) []

/-- Python `str.strip()`: drop leading and trailing Python whitespace. -/
def stripWS (l : List Char) : List Char :=
  ((l.dropWhile pyIsSpace).reverse.dropWhile pyIsSpace).reverse

/-- The helper `clean_text(s) = re.sub(r"\s+", " ", (s or "")).strip()` (the `or ""` only
turns `None` into `""`; inputs here are already strings). -/
def clean_text (s : String) : String := ⟨stripWS (collapseWS s.data)⟩

/-! ### `stable_id`: SHA-1 of the UTF-8 encoding of the URL, as lowercase hex
(`hashlib.sha1(url.encode("utf-8")).hexdigest()`). Arithmetic is on `Nat`
with explicit `% 2^32`. -/

/-- UTF-8 encoding of one scalar value, as byte values. -/
def utf8Bytes (c : Char) : List Nat :=
  let n := c.toNat
  if n < 128 then [n]
  else if n < 2048 then [192 + n / 64, 128 + n % 64]
  else if n < 65536 then [224 + n / 4096, 128 + (n / 64) % 64, 128 + n % 64]
  else [240 + n / 262144, 128 + (n / 4096) % 64, 128 + (n / 64) % 64, 128 + n % 64]

/-- The bytes `url.encode("utf-8")`, as a list. -/
def strBytes (s : String) : List Nat := (s.data.map utf8Bytes).flatten

def M32 : Nat := 4294967296

/-- Left rotation within 32 bits. -/
def rotl32 (x n : Nat) : Nat := ((x <<< n) ||| (x >>> (32 - n))) % M32

/-- Big-endian 8-byte rendering of the bit length. -/
def be64 (n : Nat) : List Nat :=
  [(n >>> 56) % 256, (n >>> 48) % 256, (n >>> 40) % 256, (n >>> 32) % 256,
   (n >>> 24) % 256, (n >>> 16) % 256, (n >>> 8) % 256, n % 256]

/-- SHA-1 padding: append 0x80, zero-pad to 56 mod 64, append the 64-bit
big-endian message bit length. -/
def sha1pad (m : List Nat) : List Nat :=
  m ++ 128 :: (List.replicate ((120 - (m.length + 1) % 64) % 64) 0 ++ be64 (8 * m.length))

/-- Split the padded message into 64-byte chunks (structural recursion on a
fuel bounded by the list length; each step consumes at least one byte). -/
def chunks64Go : Nat → List Nat → List (List Nat)
  | _, [] => []
  | 0, _ :: _ => []
  | fuel + 1, b :: rest => ((b :: rest).take 64) :: chunks64Go fuel ((b :: rest).drop 64)

def chunks64 (l : List Nat) : List (List Nat) := chunks64Go l.length l

/-- Big-endian 32-bit words from bytes. -/
def beWords : List Nat → List Nat
  | b0 :: b1 :: b2 :: b3 :: rest => (((b0 * 256 + b1) * 256 + b2) * 256 + b3) :: beWords rest
  | _ => []

/-- Message-schedule extension; `acc` holds the words most recent first, so
`w[i-3]`, `w[i-8]`, `w[i-14]`, `w[i-16]` sit at positions 2, 7, 13, 15. -/
def sha1extend (acc : List Nat) : Nat → List Nat
  | 0 => acc
  | k + 1 =>
    let g := fun i => acc.getD i 0
    sha1extend (rotl32 ((g 2) ^^^ (g 7) ^^^ (g 13) ^^^ (g 15)) 1 :: acc) k

def sha1f (i b c d : Nat) : Nat :=
  if i < 20 then (b &&& c) ||| ((b ^^^ 4294967295) &&& d)
  else if i < 40 then b ^^^ c ^^^ d
  else if i < 60 then (b &&& c) ||| (b &&& d) ||| (c &&& d)
  else b ^^^ c ^^^ d

def sha1k (i : Nat) : Nat :=
  if i < 20 then 1518500249
  else if i < 40 then 1859775393
  else if i < 60 then 2400959708
  else 3395469782

def sha1round (st : Nat × Nat × Nat × Nat × Nat) (iw : Nat × Nat) :
    Nat × Nat × Nat × Nat × Nat :=
  let (a, b, c, d, e) := st
  let (i, wv) := iw
  let temp := (rotl32 a 5 + sha1f i b c d + e + sha1k i + wv) % M32
  (temp, a, rotl32 b 30, c, d)

def sha1chunk (h : Nat × Nat × Nat × Nat × Nat) (chunk : List Nat) :
    Nat × Nat × Nat × Nat × Nat :=
  let ws := (sha1extend (beWords chunk).reverse 64).reverse
  let (a, b, c, d, e) := ws.enum.foldl sha1round h
  let (h0, h1, h2, h3, h4) := h
  ((h0 + a) % M32, (h1 + b) % M32, (h2 + c) % M32, (h3 + d) % M32, (h4 + e) % M32)

def sha1init : Nat × Nat × Nat × Nat × Nat :=
  (1732584193, 4023233417, 2562383102, 271733878, 3285377520)

/-- The five 32-bit words of the SHA-1 digest of a byte list. -/
def sha1words (m : List Nat) : List Nat :=
  let (a, b, c, d, e) := (chunks64 (sha1pad m)).foldl sha1chunk sha1init
  [a, b, c, d, e]

def hexChars : List Char := "0123456789abcdef".data

def hexDigitChar (n : Nat) : Char := hexChars.getD (n % 16) 'x'

/-- Fixed-width (8 hex digit) rendering of one 32-bit word. -/
def wordHex (w : Nat) : List Char :=
  [hexDigitChar (w >>> 28), hexDigitChar (w >>> 24), hexDigitChar (w >>> 20),
   hexDigitChar (w >>> 16), hexDigitChar (w >>> 12), hexDigitChar (w >>> 8),
   hexDigitChar (w >>> 4), hexDigitChar w]

/-- The `hexdigest()` of the SHA-1 of a byte list. -/
def sha1hex (m : List Nat) : String := ⟨((sha1words m).map wordHex).flatten⟩

/-- The id function `stable_id(url) = hashlib.sha1(url.encode("utf-8")).hexdigest()`. -/
def stable_id (url : String) : String := sha1hex (strBytes url)

/-! ### Settings (module constants in the source) -/

def MIN_TEXT_LEN : Nat := 220
def TARGET_PER_LABEL : Nat := 450

/-! ### `google_news_rss_url` and the query catalog -/

/-- The feed URL builder `google_news_rss_url(q)` with the default locale parameters the scraper
uses (`hl="en-US"`, `gl="US"`, `ceid="US:en"`); `q.replace(" ", "+")` is the
character map sending each space to a plus. -/
def google_news_rss_url (q : String) : String :=
  let q2 : String := ⟨q.data.map (fun c => if c = ' ' then '+' else c)⟩
  "https://news.google.com/rss/search?q=" ++ q2 ++ "&hl=en-US&gl=US&ceid=US:en"

/-- The catalog `LABEL_QUERIES`, in the source's (insertion) order. -/
def LABEL_QUERIES : List (String × List String) :=
  [("business",
    ["economy OR inflation OR stock market OR central bank when:30d",
     "interest rates OR bond yields OR GDP when:30d",
     "company earnings OR revenue OR profit when:30d",
     "trade deficit OR exports OR imports when:30d",
     "banking regulation OR fintech when:30d"]),
   ("tech",
    ["artificial intelligence OR generative AI OR LLM when:30d",
     "cybersecurity OR data breach OR ransomware when:30d",
     "software update OR cloud computing OR SaaS when:30d",
     "startup funding OR venture capital tech when:30d",
     "semiconductor OR chip manufacturing when:30d"]),
   ("science",
    ["climate change OR environment research when:30d",
     "space mission OR NASA OR telescope when:30d",
     "scientists discover OR study finds when:30d",
     "renewable energy research OR fusion when:30d",
     "biodiversity OR ocean study when:30d"]),
   ("health",
    ["public health OR WHO OR outbreak when:30d",
     "vaccine trial OR clinical trial when:30d",
     "hospital OR healthcare policy when:30d",
     "disease symptoms OR treatment study when:30d",
     "mental health study OR depression anxiety when:30d"]),
   ("world",
    ["election OR parliament OR government policy when:30d",
     "war OR conflict OR ceasefire when:30d",
     "diplomacy OR summit OR sanctions when:30d",
     "protest OR referendum OR coup when:30d",
     "migration OR refugees OR border policy when:30d"])]

/-! ### `resolve_google_news_to_original`

The `requests.get` + BeautifulSoup part is abstracted: a successful fetch and
parse yields a `Doc` holding exactly what the function inspects — the
`find("link", rel="canonical")` result (`none` = no such tag; `some none` = tag
without an `href` attribute; `some (some h)` = tag with `href` `h`) and the
`href` values of `find_all("a", href=True)` in document order. A `none` fetch
models any exception (network, non-2xx from `raise_for_status`, parse). -/

structure Doc where
  canonical : Option (Option String)
  anchors : List String
deriving DecidableEq

/-- The canonical check `if canon and canon.get("href"): return canon["href"]` — the tag must
exist and its `href` must be truthy (present and non-empty). -/
def canonHref : Option (Option String) → Option String
  | some (some h) => if h = "" then none else some h
  | _ => none

/-- Python substring containment `sub in s`, on character lists. -/
def pyInStr (pat : List Char) : List Char → Bool
  | [] => pat.isEmpty
  | c :: rest => pat.isPrefixOf (c :: rest) || pyInStr pat rest

/-- The anchor filter the code applies:
`href.startswith("http") and "news.google.com" not in href`. -/
def isCodeCandidate (href : String) : Bool :=
  "http".data.isPrefixOf href.data && !(pyInStr "news.google.com".data href.data)

/-- The `for a in soup.find_all("a", href=True)` loop: first href passing the
filter. -/
def findAnchor : List String → Option String
  | [] => none
  | a :: as => if isCodeCandidate a then some a else findAnchor as

/-- The resolver `resolve_google_news_to_original(url)`, over the abstracted fetch result:
exception → the input url; else canonical href if truthy; else the first
anchor passing the filter; else the input url. -/
def resolve_google_news_to_original (url : String) : Option Doc → String
  | none => url
  | some doc =>
    match canonHref doc.canonical with
    | some h => h
    | none =>
      match findAnchor doc.anchors with
      | some a => a
      | none => url

/-! Spec-side resolver for the refinement claim C4, following the spec's
words: "(b) scan anchor tags in document order and return the first absolute
HTTP(S) href whose host component is not the aggregator's own host
(news.google.com)". -/

/-- Characters after the first `"://"`. -/
def afterSchemeSep : List Char → Option (List Char)
  | [] => none
  | ':' :: '/' :: '/' :: rest => some rest
  | _ :: rest => afterSchemeSep rest

/-- The host component of an absolute URL: the authority (up to `/`, `?`,
`#`), with any userinfo (`…@`) and port (`:…`) removed. -/
def hostOf (u : String) : String :=
  match afterSchemeSep u.data with
  | none => ""
  | some rest =>
    let auth := rest.takeWhile (fun c => !(c = '/' || c = '?' || c = '#'))
    let noUser := if auth.contains '@' then ((auth.reverse.takeWhile (· ≠ '@')).reverse) else auth
    ⟨noUser.takeWhile (· ≠ ':')⟩

/-- The spec's anchor condition: absolute HTTP(S) href whose host component
is not `news.google.com`. Modelled from the spec for claim C4. -/
def isSpecCandidate (href : String) : Bool :=
  ("http://".data.isPrefixOf href.data || "https://".data.isPrefixOf href.data)
    && hostOf href ≠ "news.google.com"

/-- The resolution algorithm as the spec states it (claim C4), on a
successfully fetched and parsed page. Modelled from the spec. -/
def specResolve (url : String) (doc : Doc) : String :=
  match canonHref doc.canonical with
  | some h => h
  | none =>
    match doc.anchors.find? isSpecCandidate with
    | some a => a
    | none => url

/-! ### `urlparse(original).netloc` (for the `source` field) -/

/-- Python `urlparse(u).netloc` for URLs carrying a scheme: the authority between
`"://"` and the first `/`, `?` or `#` (userinfo and port included, as in
`urllib`). URLs without `"://"` have empty netloc. -/
def netloc (u : String) : String :=
  match afterSchemeSep u.data with
  | none => ""
  | some rest => ⟨rest.takeWhile (fun c => !(c = '/' || c = '?' || c = '#'))⟩

/-! ### Records, state, and the external world -/

/-- A feed entry as the scraper reads it: `getattr(e, f, "")` collapses a
missing attribute and the empty string, which the code treats alike
(truthiness), so every field is a plain string. -/
structure Entry where
  link : String
  title : String
  summary : String
  description : String
  published : String
deriving DecidableEq

/-- The record appended to the JSONL log (the `row` dict, field for field). -/
structure Rec where
  id : String
  label : String
  source : String
  url : String
  published_at : String
  title : String
  summary : String
  text : String
  scraped_at : String
deriving DecidableEq

/-- Mutable pipeline state: the durable append-only log (`raw.jsonl`), the
in-memory dedup ledger `seen` (a Python set, modelled as the list of its
elements — only membership and insertion are used), and the trace of feed
URLs passed to `feedparser.parse` (to observe which feeds a run fetches). -/
structure St where
  log : List Rec
  seen : List String
  fetched : List String
deriving DecidableEq

/-- The effectful collaborators, fixed for a run: `fetch` abstracts
`requests.get`+parse inside the resolver, `extract` abstracts
`trafilatura.fetch_url`+`extract` (`none` = failed download / exception /
`None` extraction), `feeds` abstracts `feedparser.parse(url).entries`
(empty on failure), and `timeAt` abstracts `datetime.now(timezone.utc)`
as a function of how many records the log already holds. -/
structure World where
  fetch : String → Option Doc
  extract : String → Option String
  feeds : String → List Entry
  timeAt : Nat → String

/-- The extractor `extract_full_text(url)`: on success `clean_text` of the extracted text,
on any failure `""`. -/
def extract_full_text (w : World) (url : String) : String :=
  match w.extract url with
  | none => ""
  | some t => clean_text t

/-! ### One feed entry (the body of the `for e in entries` loop)

The loop body is decomposed into pure helpers; each mirrors a line of
`scrape_label`. -/

/-- The line `original = resolve_google_news_to_original(link)`. -/
def entryOriginal (w : World) (e : Entry) : String :=
  resolve_google_news_to_original e.link (w.fetch e.link)

/-- The line `_id = stable_id(original)`. -/
def entryId (w : World) (e : Entry) : String := stable_id (entryOriginal w e)

/-- The line `summary = clean_text(getattr(e,"summary","") or getattr(e,"description","") or "")`. -/
def entrySummary (e : Entry) : String :=
  clean_text (if e.summary = "" then e.description else e.summary)

/-- The line `published = clean_text(e.published) if e.published else ""`. -/
def entryPublished (e : Entry) : String :=
  if e.published = "" then "" else clean_text e.published

/-- The title+summary fallback: `clean_text` of title, a period-and-space, and summary, on the
already-cleaned title and summary. -/
def entryFallback (e : Entry) : String :=
  clean_text (clean_text e.title ++ ". " ++ entrySummary e)

/-- The line `text = extract_full_text(original)`, replaced by the fallback when
shorter than `MIN_TEXT_LEN`. -/
def entryText (w : World) (e : Entry) : String :=
  let t := extract_full_text w (entryOriginal w e)
  if t.length < MIN_TEXT_LEN then entryFallback e else t

/-- The entry loop body up to the append: `none` when the entry is skipped
(empty link, id already in the ledger, or final text below `MIN_TEXT_LEN`),
otherwise the `row` dict that gets appended. -/
def entryRow (w : World) (lab : String) (st : St) (e : Entry) : Option Rec :=
  if e.link = "" then none
  else if entryId w e ∈ st.seen then none
  else if (entryText w e).length < MIN_TEXT_LEN then none
  else some
    { id := entryId w e
      label := lab
      source := netloc (entryOriginal w e)
      url := entryOriginal w e
      published_at := entryPublished e
      title := clean_text e.title
      summary := entrySummary e
      text := entryText w e
      scraped_at := w.timeAt st.log.length }

/-! ### The scraping loops -/

/-- Result of the entry/query loops: final state, the per-label running
total `added`, and whether `scrape_label` `return`ed early (quota hit). -/
structure ERes where
  st : St
  added : Nat
  stopped : Bool
deriving DecidableEq

/-- The `for e in entries` loop of `scrape_label`: quota check before the
entry, skip-or-append, ledger update, quota check after the append. The
`time.sleep(SLEEP_SEC)` rate-limit pause has no effect on the state and is
not modelled. -/
def scrapeEntries (w : World) (lab : String) : List Entry → St → Nat → ERes
  | [], st, added => ⟨st, added, false⟩
  | e :: es, st, added =>
    if TARGET_PER_LABEL ≤ added then ⟨st, added, true⟩
    else
      match entryRow w lab st e with
      | none => scrapeEntries w lab es st added
      | some row =>
        let st' : St := ⟨st.log ++ [row], st.seen ++ [row.id], st.fetched⟩
        if TARGET_PER_LABEL ≤ added + 1 then ⟨st', added + 1, true⟩
        else scrapeEntries w lab es st' (added + 1)

/-- The `for q in queries` loop of `scrape_label`: build the feed URL, fetch
the feed (recorded in the trace), run the entry loop, and keep going unless
that loop `return`ed. -/
def scrapeQueries (w : World) (lab : String) : List String → St → Nat → ERes
  | [], st, added => ⟨st, added, false⟩
  | q :: qs, st, added =>
    let feedUrl := google_news_rss_url q
    let st1 : St := ⟨st.log, st.seen, st.fetched ++ [feedUrl]⟩
    let r := scrapeEntries w lab (w.feeds feedUrl) st1 added
    if r.stopped then r else scrapeQueries w lab qs r.st r.added

/-- The function `scrape_label(label, queries, seen)`: the query loop started at
`added = 0`. -/
def scrape_label (w : World) (lab : String) (queries : List String) (st : St) : ERes :=
  scrapeQueries w lab queries st 0

/-- Result of a whole run: final state, `total_added`, and each label's
early-return flag in catalog order. -/
structure LRes where
  st : St
  total : Nat
  flags : List Bool
deriving DecidableEq

/-- The label loop of `run()`. -/
def runLabels (w : World) : List (String × List String) → St → LRes
  | [], st => ⟨st, 0, []⟩
  | (lab, qs) :: rest, st =>
    let r := scrape_label w lab qs st
    let l := runLabels w rest r.st
    ⟨l.st, r.added + l.total, r.stopped :: l.flags⟩

/-- One run of the pipeline over the catalog, from a given state. -/
def runModel (w : World) (st : St) : LRes := runLabels w LABEL_QUERIES st

/-- The startup state of `run()`: the durable log on disk plus the ledger
`seen = load_seen_ids()` seeded from it (each log line is the JSON of a
record, so the ids collected are exactly the records' `id` fields; Python's
set is modelled by the id list, whose membership is what the code consults). -/
def mkStart (log : List Rec) : St := ⟨log, log.map (fun r => r.id), []⟩

/-! ### `load_seen_ids` over raw lines

For claim C9 the log file is a list of arbitrary lines, each abstracted to
its `json.loads` outcome: `none` when parsing raises (corrupt/partial line,
or a non-object for which the `["id"]` indexing raises), `some kvs` for an
object with (string-valued) fields. A missing `"id"` key raises `KeyError`,
also swallowed by the bare `except`. -/

def lineId : Option (List (String × String)) → Option String
  | none => none
  | some kvs => kvs.lookup "id"

/-- The accumulator loop of `load_seen_ids` (`seen.add` keeps the set free of
duplicates; the model keeps first-insertion order). -/
def loadSeenAux (seen : List String) : List (Option (List (String × String))) → List String
  | [] => seen
  | l :: ls =>
    match lineId l with
    | none => loadSeenAux seen ls
    | some v => loadSeenAux (if v ∈ seen then seen else seen ++ [v]) ls

/-- The function `load_seen_ids()` over the parse outcomes of the log's lines. -/
def load_seen_ids (lines : List (Option (List (String × String)))) : List String :=
  loadSeenAux [] lines

/-! ### `rebuild_csv`

`pd.read_json(..., lines=True)` over a well-formed log is the record list
itself; `df[cols]` selects the nine columns in order (modelled by `toRow`);
`drop_duplicates("id")` keeps the first record per id; `to_csv` replaces the
snapshot. A missing or empty log returns before writing. -/

/-- Pandas `drop_duplicates("id")`: keep the first row per id. -/
def dedupAux (ids : List String) : List Rec → List Rec
  | [] => []
  | r :: rs => if r.id ∈ ids then dedupAux ids rs else r :: dedupAux (ids ++ [r.id]) rs

def drop_duplicates_by_id (log : List Rec) : List Rec := dedupAux [] log

/-- The fixed column set, in order. -/
def csvHeader : List String :=
  ["id", "label", "source", "url", "published_at", "title", "summary", "text", "scraped_at"]

/-- One CSV row: the record's fields in the fixed column order. -/
def toRow (r : Rec) : List String :=
  [r.id, r.label, r.source, r.url, r.published_at, r.title, r.summary, r.text, r.scraped_at]

/-- The function `rebuild_csv()` as a function from the log and the previous snapshot to
the new snapshot: on a missing or empty log it returns without writing
(snapshot unchanged); otherwise it writes header plus one row per surviving
record, replacing the old snapshot. The log itself is read only. -/
def rebuild_csv (log : List Rec) (csv : Option (List (List String))) :
    Option (List (List String)) :=
  if log.isEmpty then csv
  else some (csvHeader :: (drop_duplicates_by_id log).map toRow)

/-- The rebuild the spec describes (claim C6): always write the snapshot
computed from the log alone. Modelled from the spec. -/
def specRebuild (log : List Rec) : Option (List (List String)) :=
  some (csvHeader :: (drop_duplicates_by_id log).map toRow)

/-! ### Concrete worlds and inputs used when settling the claims -/

/-- A text of 220 `a`s: a minimal text meeting `MIN_TEXT_LEN`. -/
def longText : String := ⟨List.replicate 220 'a'⟩

/-- The spec's C5 scenario entry: title `"X"`, empty summary. -/
def e5 : Entry := ⟨"https://news.example/articles/abc", "X", "", "", ""⟩

/-- C5 scenario world: the resolver finds a canonical publisher link, the
extractor fails (empty text). -/
def w5 : World :=
  { fetch := fun u =>
      if u = e5.link then some ⟨some (some "https://real-publisher.com/story/1"), []⟩ else none
    extract := fun _ => none
    feeds := fun _ => []
    timeAt := fun _ => "T" }

/-- A world whose feeds are all empty and whose network always fails. -/
def wEmpty : World :=
  { fetch := fun _ => none
    extract := fun _ => none
    feeds := fun _ => []
    timeAt := fun _ => "T" }

/-- The first business query of the catalog and its feed URL. -/
def cQ1 : String := "economy OR inflation OR stock market OR central bank when:30d"

def cFeedUrl : String := google_news_rss_url cQ1

def cUrl (k : Nat) : String := "https://p.example/" ++ Nat.repr k

def cEntry (k : Nat) : Entry := ⟨cUrl k, "t", "", "", ""⟩

/-- The 451 entries with pairwise-distinct links: one more than the per-label
quota. -/
def cEntries : List Entry := (List.range 451).map cEntry

/-- World for the quota counterexample: the first business feed returns 451
admissible entries (resolution fails, so each link is its own resolved URL;
extraction always returns a long text); every other feed is empty. -/
def cWorld : World :=
  { fetch := fun _ => none
    extract := fun _ => some longText
    feeds := fun u => if u = cFeedUrl then cEntries else []
    timeAt := fun _ => "T" }

/-- A world appending exactly one record (for witnesses). -/
def eOne : Entry := ⟨"https://one.example/a", "t", "", "", ""⟩

def wOne : World :=
  { fetch := fun _ => none
    extract := fun _ => some longText
    feeds := fun u => if u = cFeedUrl then [eOne] else []
    timeAt := fun _ => "T" }

/-- A fingerprint of a hex id: its first eight characters packed into a
number (any function works for transporting `Nodup` along `List.map`). -/
def key8 (s : String) : Nat := (s.data.take 8).foldl (fun a c => a * 256 + c.toNat) 0

def cKeyOf (k : Nat) : Nat := key8 (stable_id (cUrl k))

/-- The `key8` fingerprints of the 451 ids of `cEntries`, as literals
(in five slices, recombined below). -/
def cK0 : List Nat :=
  [4051330024248521572,
   3775817922534389560,
   3559592170505122661,
   7161395434112825400,
   4135210882373464626,
   4134921508113113401,
   7018353390119182647,
   7162472938344692019,
   4121130346684560692,
   3760612780414428774,
   3630243472782812468,
   3919315176468461923,
   3616446809481033060,
   7305737108715626809,
   7365137124857766199,
   7363446100958851890,
   7219323190565418037,
   7305231345494078521,
   4064043681461855841,
   7233967612510888804,
   3472609771322172211,
   4122540106063045476,
   3918757505046831716,
   4050814358361564215,
   7003151517305299812,
   3472610892328363574,
   7292562966546965304,
   3833796270852499042,
   3617905852052485733,
   7004565690437100857,
   7090136106166347362,
   3559310661923398451,
   3688785860443006259,
   7364339996174790756,
   3618696598411360057,
   4063481861104742967,
   4062635430538983524,
   7377240754209829174,
   3977348491859473508,
   4049074930966476088,
   3761131557484901169,
   3545234743357878885,
   7147551499696224052,
   3487535865765443941,
   3473735676282024760,
   3774687396830262326,
   7233117891077432165,
   3847261766500626486,
   4051324540380668771,
   7005403514703995961,
   3545793273873577783,
   3847816126488917559,
   7161394356055991140,
   7148676295782851380,
   3486686832301924915,
   7161347076318126389,
   7233965408451387960,
   3847309078971245111,
   3544667387623727666,
   7003997058943312433,
   7016946195590822200,
   7017280263280472632,
   3617576191837614640,
   3833460695709857844,
   7149245812637185076,
   7017787142402224949,
   7233969999637132345,
   3702296870667826739,
   7147275492081676855,
   3472897847546373685,
   3474580121811432804,
   3473176230180185401,
   4063765728458924898,
   7161910017748120629,
   3631702541906425401,
   4123387639711032372,
   3631653063061234227,
   3618189539655902258,
   3544440883181400630,
   7221069220113757495,
   3762252135890367078,
   3763099657528554549,
   7220173134458270007,
   7221348503818219875,
   3991142771451323238,
   3688838649906292069,
   3703420368835524661,
   3977633062651508276,
   7378132463243310692,
   7364289426424346164,
   3834646179731683376]

def cK1 : List Nat :=
  [3559362561606694753,
   3688557184338322994,
   4121746060263907686,
   7148167420239360099,
   7306588357506904882,
   3472618601811489847,
   7161630729665329507,
   7364904049867765554,
   7305173092905924705,
   7220451508522203449,
   3473175130738418230,
   7305455856353097271,
   3544676169925735734,
   7234582230078732595,
   7293637193752785718,
   3775198893947892273,
   7365128358041576503,
   3689683074900506213,
   4135257972448440673,
   3616450086557672802,
   3977579410712060723,
   3977860683017041761,
   3991146275389518896,
   3618977868084830514,
   3991140575917715813,
   3617857469245777249,
   7291436869105169971,
   7220740473935717477,
   4062869433916731700,
   3847541037373613616,
   3702347259190784310,
   3631649949313294946,
   3630856986664448099,
   7234576930058744370,
   7075493909819307062,
   4122310303150073137,
   3616443703434295346,
   3544953277826413414,
   3919873547953201761,
   3904680681014442342,
   4135205173660628276,
   7016947097567310694,
   4123152533285318755,
   3774913935668492082,
   3546976365517551928,
   3905009241687352120,
   3474586912289076784,
   7075215918080549940,
   7077182759796880182,
   4050486724603032421,
   7147832974622745702,
   3919592042811241826,
   3617345088251257397,
   7018357783789974071,
   7018354665690839397,
   3919646138041590118,
   7377287822890578230,
   7147884827712303408,
   7292564073812668980,
   7291383207766865505,
   3473460801881466418,
   3473176041221076789,
   3774356482602382901,
   3702303248627348276,
   4134645552273252921,
   7076339408490947174,
   3846697930914542693,
   3846745219292936496,
   4134928320806598455,
   7378411537330169392,
   3689636873987307110,
   4063435673845457715,
   3919366867154909541,
   3774916096037316152,
   3905246728394268985,
   7220449103303554918,
   3846975926947557990,
   3834026970052126259,
   3991144076298893619,
   7292791471725568564,
   4050536400261821495,
   7005179231531709025,
   3558794990201299249,
   4051099148331987765,
   3907213766826733924,
   3834080816043077939,
   3473740073570416946,
   3978983254458446896,
   3774640157340557872,
   3977914542798942261]

def cK2 : List Nat :=
  [7377848788518790500,
   3546414527924089446,
   3558514627568034097,
   7220177537655126065,
   4135208464326932274,
   3991372555690926901,
   7377801320523511142,
   3617858582363715636,
   3544388128030810419,
   7364009029518452067,
   4050818755603214388,
   3617013039917183329,
   3904677189071877433,
   7089286377071862841,
   7221295728082182754,
   3760618046074468198,
   4134925901867935076,
   3616728481207116900,
   3474027051104876087,
   7090413166741709366,
   4062920183283791928,
   3472945333546607156,
   3833181647339598387,
   7076621093921449570,
   7089054376508406114,
   7161629620775104562,
   7018350087208515124,
   3630240379648423779,
   3473511405216936757,
   3906085848267896418,
   7378696525623944292,
   3904727771743598387,
   4120854348579694136,
   3559589955056854115,
   4062588139325120821,
   7089056373667870518,
   3546642089001510448,
   3689074156703461427,
   7305462238556873314,
   3689117913092219492,
   3978476611441865784,
   7077799770470101350,
   3487584033803690297,
   3617292531508076902,
   3631139557629584177,
   3486687042785850165,
   3761462501002785892,
   3690477133520790885,
   7075499587799638836,
   3559586849023799348,
   3919882339768034104,
   3762249755676534373,
   3472618601727800882,
   4135260179991311928,
   3761688102836462131,
   4062862831864144184,
   3545285312356181606,
   7220454583668454758,
   7076342716421322337,
   7149010552381204068,
   3616727188502885175,
   4051376229456568624,
   4135257942363956537,
   4049357719482085989,
   7293634801425474147,
   7147556992825255523,
   3834030458303754850,
   3546973041210112057,
   7220167649788125493,
   3689683054197421623,
   3760617174280385336,
   3616734876363209013,
   4134920400145495092,
   4049077142874515000,
   3546925766471203126,
   3618695499019990577,
   7365694787035477558,
   3846974819654591284,
   3558519012812940388,
   3689402910626756452,
   3905805257970692405,
   3702579251094106930,
   7004615168339949877,
   3703143489571271734,
   3991933530009723953,
   3775479259983984693,
   7377569529781760869,
   7220173341508908848,
   7075266483549791842,
   7161060288382711347]

def cK3 : List Nat :=
  [4049358609312146739,
   3977350702928311602,
   7306018579430913332,
   7364569771794523696,
   3906645508259721570,
   7075266482814597170,
   7089054178185066854,
   3775536430280107568,
   7366029047898924084,
   3545803177984603955,
   3487585119692338993,
   7005180313125152355,
   3617858573823981623,
   3919035720079335990,
   4050196432108793957,
   7161112859688199781,
   3559359070553124916,
   7364058499689505080,
   7161116171040862521,
   3907208453851145313,
   3978986776180187446,
   3546927974909884471,
   7219609282662576994,
   4049361916473271141,
   4123385625455179061,
   3545230547224901222,
   7162183774621675617,
   7076107630698063417,
   7293920669278089317,
   7162468548851872565,
   7364336903784653413,
   7003437596570444344,
   7366025739968327731,
   3832618505001710182,
   7089002699478872119,
   7291389611549536568,
   7291669951883273825,
   7219606894629970790,
   3761691388402610483,
   3761738658893291831,
   3979041752654177124,
   7292226532433803312,
   3846408554070292279,
   4050201921862448952,
   3833748789164074597,
   3834927655449605218,
   7377515426061956146,
   3473182638254416742,
   7364567582146310453,
   7378084982460658275,
   7089850216100409953,
   7161630930722961200,
   7220739378752532788,
   3905240118422811192,
   3907207156854895409,
   3690811362761716581,
   3760896441596458547,
   4120848867396051302,
   7162472941884630069,
   3977302101165433655,
   3847825828766442297,
   3919873736867983715,
   7293356603458336057,
   3763091956665836082,
   4120900557380674352,
   7149806590126143795,
   3546415627502904675,
   7220451293787599412,
   7077519210371900517,
   3690761704330192227,
   3617061620292006241,
   3689633790955763301,
   3546927077258519906,
   3486684646160217955,
   3702579436549518136,
   3919084072801350455,
   3762587503362127920,
   4121699872199238967,
   7291385178371535458,
   3618977858622534498,
   3977864166322353977,
   3990530364965663541,
   7233732294722729315,
   3688559386952216629,
   7221584886030874933,
   3546360823706706740,
   7219888361835671906,
   3833514790876295729,
   3559641640696363320,
   4121748250794877747]

def cK4 : List Nat :=
  [7378639161235093606,
   7305177680682497588,
   3630805313792468275,
   7148679792655152947,
   4048794770252967992,
   3761739776340287798,
   3617569392834393913,
   7076952957571511088,
   3833189147207820593,
   3689404882033652791,
   7005124054103700016,
   4050531800334939748,
   3472328301411906866,
   4135771426322997606,
   4050204330503188793,
   7005740871503196721,
   7148730356502640738,
   3473227726824104756,
   3832901079459456055,
   3690196525342144100,
   3690527706727265329,
   7017002082530059877,
   7148680689480773986,
   3546356215153439797,
   7075773181614842161,
   3631652139659834465,
   4134975371401769782,
   3846415163182965606,
   3559077604149507121,
   3846981403034137700,
   7004048937067951412,
   7365748675990598245,
   7161395447044519011,
   3486969427490005858,
   3991703736357826617,
   7377234157274228066,
   3702348362963629878,
   7377233079928434786,
   3990529235359117923,
   7161347269644804662,
   7366031044186104885,
   7233454136235276339,
   4121409614064530785,
   7305178581736502577,
   3631369389094416993,
   3558235571496183092,
   7378078381011777125,
   3990861282837541177,
   3774353378012127793,
   7147828546413934901,
   3991423343746167092,
   7366025563894866743,
   3545799879533016889,
   3486460320002105653,
   7090129681700304228,
   3486461431693652531,
   3702583838910801208,
   7089287274733581409,
   4122260653247379000,
   3544667382542984546,
   3774915008591651893,
   7148961262480876595,
   7234015985955583287,
   4120853450095670326,
   7149571285343167541,
   3906366048411334712,
   3558519030731202869,
   7378356758495377718,
   3558797403953062969,
   7234014882934894948,
   3774357544200582194,
   3990524850210890039,
   3762811787311919670,
   4049127732509292387,
   3702864209208501808,
   3906983934469694262,
   3978989877297963319,
   3979324125259182691,
   4049410285569586489,
   4134642245145212769,
   3631699435806286902,
   3690196564799207009,
   3559313075695138405,
   3473464126102253623,
   3487585137596837937,
   3689916364588737591,
   3919595332806389815,
   3544390296989480245,
   7306356167363682870,
   7364003561924485734]

def cKeys : List Nat := cK0 ++ (cK1 ++ (cK2 ++ (cK3 ++ cK4)))

/-- C10 concrete scenario: one business entry and one tech entry whose pages
both declare the same canonical publisher URL. -/
def storyUrl : String := "https://pub.example/story"

def eA : Entry := ⟨"https://news.google.com/articles/AAA", "t", "", "", ""⟩

def eB : Entry := ⟨"https://news.google.com/articles/BBB", "t", "", "", ""⟩

/-- The first tech query of the catalog. -/
def tQ1 : String := "artificial intelligence OR generative AI OR LLM when:30d"

def w10 : World :=
  { fetch := fun u =>
      if u = eA.link || u = eB.link then some ⟨some (some storyUrl), []⟩ else none
    extract := fun _ => some longText
    feeds := fun u =>
      if u = cFeedUrl then [eA] else if u = google_news_rss_url tQ1 then [eB] else []
    timeAt := fun _ => "T" }

/-- A record literal with a chosen id (for rebuild/uniqueness witnesses). -/
def mkrec (i : String) : Rec := ⟨i, "business", "s", "u", "", "t", "m", "x", "T"⟩

/-- A record whose text meets the minimum length. -/
def recLong : Rec := ⟨"idL", "business", "s", "u", "", "t", "m", longText, "T"⟩

/-- The first 450 counterexample entries (the part run 1 appends). -/
def es450 : List Entry := (List.range 450).map cEntry

/-- Their ids. -/
def cIds450 : List String := es450.map (entryId cWorld)

/-- The business queries after the first one. -/
def bRest : List String :=
  ["interest rates OR bond yields OR GDP when:30d",
   "company earnings OR revenue OR profit when:30d",
   "trade deficit OR exports OR imports when:30d",
   "banking regulation OR fintech when:30d"]

/-- The business label's queries. -/
def bQueries : List String := cQ1 :: bRest

/-- The catalog after the business label. -/
def catRest : List (String × List String) :=
  [("tech",
    ["artificial intelligence OR generative AI OR LLM when:30d",
     "cybersecurity OR data breach OR ransomware when:30d",
     "software update OR cloud computing OR SaaS when:30d",
     "startup funding OR venture capital tech when:30d",
     "semiconductor OR chip manufacturing when:30d"]),
   ("science",
    ["climate change OR environment research when:30d",
     "space mission OR NASA OR telescope when:30d",
     "scientists discover OR study finds when:30d",
     "renewable energy research OR fusion when:30d",
     "biodiversity OR ocean study when:30d"]),
   ("health",
    ["public health OR WHO OR outbreak when:30d",
     "vaccine trial OR clinical trial when:30d",
     "hospital OR healthcare policy when:30d",
     "disease symptoms OR treatment study when:30d",
     "mental health study OR depression anxiety when:30d"]),
   ("world",
    ["election OR parliament OR government policy when:30d",
     "war OR conflict OR ceasefire when:30d",
     "diplomacy OR summit OR sanctions when:30d",
     "protest OR referendum OR coup when:30d",
     "migration OR refugees OR border policy when:30d"])]

/-! ### Material for claim C7 (the identity function) -/

/-- The value of a lowercase hex digit (other characters map to 0). -/
def charToNibble : Char → Fin 16
  | '0' => 0 | '1' => 1 | '2' => 2 | '3' => 3 | '4' => 4 | '5' => 5 | '6' => 6 | '7' => 7
  | '8' => 8 | '9' => 9 | 'a' => 10 | 'b' => 11 | 'c' => 12 | 'd' => 13 | 'e' => 14
  | 'f' => 15
  | _ => 0

/-- Arbitrarily long pairwise-distinct URLs. -/
def aUrl (n : Nat) : String := ⟨List.replicate n 'a'⟩

/-- The digest of a URL, read as forty nibbles — a map into a finite type,
through which the pigeonhole principle applies to `stable_id`. -/
def hashNibbles (s : String) : Fin 40 → Fin 16 :=
  fun i => charToNibble ((stable_id s).data.getD i.val 'x')

end GNscraper

namespace GNscraper

/-! ## Basic facts about the entry step -/

theorem entryRow_none_iff (w : World) (lab : String) (st : St) (e : Entry) :
    entryRow w lab st e = none ↔
      e.link = "" ∨ entryId w e ∈ st.seen ∨ (entryText w e).length < MIN_TEXT_LEN := by
  unfold entryRow
  split_ifs with h1 h2 h3 <;> simp_all

theorem entryRow_some_spec (w : World) (lab : String) (st : St) (e : Entry) (row : Rec)
    (h : entryRow w lab st e = some row) :
    row.id = entryId w e ∧ row.label = lab ∧ row.text = entryText w e ∧
      MIN_TEXT_LEN ≤ row.text.length ∧ entryId w e ∉ st.seen := by
  unfold entryRow at h
  split_ifs at h with h1 h2 h3
  cases h
  exact ⟨rfl, rfl, rfl, Nat.le_of_not_lt h3, h2⟩

/-- The skip decision depends on the state only through ledger membership, so
it is stable under a larger ledger. -/
theorem entryRow_none_stable (w : World) (lab : String) (st₁ st₂ : St) (e : Entry)
    (hsub : st₁.seen ⊆ st₂.seen) (h : entryRow w lab st₁ e = none) :
    entryRow w lab st₂ e = none := by
  rw [entryRow_none_iff] at h ⊢
  rcases h with h | h | h
  · exact Or.inl h
  · exact Or.inr (Or.inl (hsub h))
  · exact Or.inr (Or.inr h)

theorem entryRow_none_of_seen (w : World) (lab : String) (st : St) (e : Entry)
    (h : entryId w e ∈ st.seen) : entryRow w lab st e = none :=
  (entryRow_none_iff w lab st e).2 (Or.inr (Or.inl h))

/-! ## Shape of the entry loop: the log and the ledger only grow, in sync -/

theorem scrapeEntries_shape (w : World) (lab : String) (es : List Entry) :
    ∀ (st : St) (a : Nat), ∃ Δ : List Rec,
      (scrapeEntries w lab es st a).st.log = st.log ++ Δ ∧
      (scrapeEntries w lab es st a).st.seen = st.seen ++ Δ.map (fun r => r.id) ∧
      (scrapeEntries w lab es st a).st.fetched = st.fetched ∧
      (scrapeEntries w lab es st a).added = a + Δ.length ∧
      (∀ r ∈ Δ, r.label = lab ∧ MIN_TEXT_LEN ≤ r.text.length ∧ r.id ∉ st.seen) ∧
      (st.seen.Nodup → (st.seen ++ Δ.map (fun r => r.id)).Nodup) := by
  induction es with
  | nil =>
    intro st a
    exact ⟨[], by simp [scrapeEntries]⟩
  | cons e es ih =>
    intro st a
    by_cases hT : TARGET_PER_LABEL ≤ a
    · have hstep : scrapeEntries w lab (e :: es) st a = ⟨st, a, true⟩ := by
        simp [scrapeEntries, hT]
      exact ⟨[], by rw [hstep]; simp⟩
    · cases hrow : entryRow w lab st e with
      | none =>
        have hstep : scrapeEntries w lab (e :: es) st a = scrapeEntries w lab es st a := by
          simp only [scrapeEntries, if_neg hT, hrow]
        obtain ⟨Δ, h1, h2, h3, h4, h5, h6⟩ := ih st a
        exact ⟨Δ, by rw [hstep]; exact h1, by rw [hstep]; exact h2,
          by rw [hstep]; exact h3, by rw [hstep]; exact h4, h5, h6⟩
      | some row =>
        obtain ⟨hid, hlab, htext, hlen, hfresh⟩ := entryRow_some_spec w lab st e row hrow
        have hnodup1 : st.seen.Nodup → (st.seen ++ [row.id]).Nodup := by
          intro hnd
          rw [List.nodup_append]
          refine ⟨hnd, List.nodup_singleton _, ?_⟩
          intro x hx hx'
          rw [List.mem_singleton] at hx'
          subst hx'
          exact (hid ▸ hfresh) hx
        by_cases hT2 : TARGET_PER_LABEL ≤ a + 1
        · have hstep : scrapeEntries w lab (e :: es) st a =
              ⟨⟨st.log ++ [row], st.seen ++ [row.id], st.fetched⟩, a + 1, true⟩ := by
            simp only [scrapeEntries, if_neg hT, hrow, if_pos hT2]
          refine ⟨[row], by rw [hstep], by rw [hstep]; rfl, by rw [hstep],
            by rw [hstep]; simp, ?_, ?_⟩
          · intro r hr
            rw [List.mem_singleton] at hr
            subst hr
            exact ⟨hlab, hlen, hid ▸ hfresh⟩
          · intro hnd
            simpa using hnodup1 hnd
        · have hstep : scrapeEntries w lab (e :: es) st a =
              scrapeEntries w lab es ⟨st.log ++ [row], st.seen ++ [row.id], st.fetched⟩ (a + 1) := by
            simp only [scrapeEntries, if_neg hT, hrow, if_neg hT2]
          obtain ⟨Δ, h1, h2, h3, h4, h5, h6⟩ :=
            ih ⟨st.log ++ [row], st.seen ++ [row.id], st.fetched⟩ (a + 1)
          simp only at h1 h2 h3 h4 h5 h6
          refine ⟨row :: Δ, ?_, ?_, ?_, ?_, ?_, ?_⟩
          · rw [hstep, h1, List.append_assoc]
            rfl
          · rw [hstep, h2, List.append_assoc]
            rfl
          · rw [hstep]
            exact h3
          · rw [hstep, h4, List.length_cons]
            omega
          · intro r hr
            rcases List.mem_cons.1 hr with hr | hr
            · subst hr
              exact ⟨hlab, hlen, hid ▸ hfresh⟩
            · obtain ⟨p1, p2, p3⟩ := h5 r hr
              refine ⟨p1, p2, fun hmem => p3 ?_⟩
              exact List.mem_append_left _ hmem
          · intro hnd
            have := h6 (hnodup1 hnd)
            rw [List.append_assoc] at this
            rw [List.map_cons]
            exact this

/-- The entry loop never touches the fetch trace. -/
theorem scrapeEntries_fetched (w : World) (lab : String) (es : List Entry) (st : St) (a : Nat) :
    (scrapeEntries w lab es st a).st.fetched = st.fetched :=
  (scrapeEntries_shape w lab es st a).choose_spec.2.2.1

/-- The ledger only grows across the entry loop. -/
theorem scrapeEntries_seen_sub (w : World) (lab : String) (es : List Entry) (st : St) (a : Nat) :
    st.seen ⊆ (scrapeEntries w lab es st a).st.seen := by
  obtain ⟨Δ, _, h2, _⟩ := scrapeEntries_shape w lab es st a
  rw [h2]
  exact fun x hx => List.mem_append_left _ hx

/-! ## Splitting the entry loop -/

/-- An early `return` inside the first part of the feed swallows the rest. -/
theorem scrapeEntries_append_stop (w : World) (lab : String) (xs ys : List Entry) :
    ∀ (st : St) (a : Nat) (st' : St) (a' : Nat),
      scrapeEntries w lab xs st a = ⟨st', a', true⟩ →
      scrapeEntries w lab (xs ++ ys) st a = ⟨st', a', true⟩ := by
  induction xs with
  | nil =>
    intro st a st' a' h
    simp only [scrapeEntries] at h
    cases h
  | cons e es ih =>
    intro st a st' a' h
    by_cases hT : TARGET_PER_LABEL ≤ a
    · simp only [scrapeEntries, if_pos hT] at h ⊢
      exact h
    · cases hrow : entryRow w lab st e with
      | none =>
        simp only [List.cons_append, scrapeEntries, if_neg hT, hrow] at h ⊢
        exact ih st a st' a' h
      | some row =>
        by_cases hT2 : TARGET_PER_LABEL ≤ a + 1
        · simp only [List.cons_append, scrapeEntries, if_neg hT, hrow, if_pos hT2] at h ⊢
          exact h
        · simp only [List.cons_append, scrapeEntries, if_neg hT, hrow, if_neg hT2] at h ⊢
          exact ih _ _ st' a' h

/-- If the first part of the feed completes without `return`, processing
continues into the rest from the reached state. -/
theorem scrapeEntries_append_cont (w : World) (lab : String) (xs ys : List Entry) :
    ∀ (st : St) (a : Nat) (st' : St) (a' : Nat),
      scrapeEntries w lab xs st a = ⟨st', a', false⟩ →
      scrapeEntries w lab (xs ++ ys) st a = scrapeEntries w lab ys st' a' := by
  induction xs with
  | nil =>
    intro st a st' a' h
    simp only [scrapeEntries] at h
    cases h
    rfl
  | cons e es ih =>
    intro st a st' a' h
    by_cases hT : TARGET_PER_LABEL ≤ a
    · simp only [scrapeEntries, if_pos hT] at h
      cases h
    · cases hrow : entryRow w lab st e with
      | none =>
        simp only [List.cons_append, scrapeEntries, if_neg hT, hrow] at h ⊢
        exact ih st a st' a' h
      | some row =>
        by_cases hT2 : TARGET_PER_LABEL ≤ a + 1
        · simp only [scrapeEntries, if_neg hT, hrow, if_pos hT2] at h
          cases h
        · simp only [List.cons_append, scrapeEntries, if_neg hT, hrow, if_neg hT2] at h ⊢
          exact ih _ _ st' a' h

/-- A stretch of entries that are all skipped leaves state and counter
unchanged and does not `return`. -/
theorem scrapeEntries_skip_all (w : World) (lab : String) (es : List Entry) :
    ∀ (st : St) (a : Nat), a < TARGET_PER_LABEL →
      (∀ e ∈ es, entryRow w lab st e = none) →
      scrapeEntries w lab es st a = ⟨st, a, false⟩ := by
  induction es with
  | nil =>
    intro st a _ _
    rfl
  | cons e es ih =>
    intro st a hT h
    have hrow : entryRow w lab st e = none := h e (List.mem_cons_self e es)
    simp only [scrapeEntries, if_neg (Nat.not_le_of_lt hT), hrow]
    exact ih st a hT (fun x hx => h x (List.mem_cons_of_mem e hx))

/-- A stretch of admissible entries with fresh, pairwise-distinct ids that
fits under the quota is appended wholesale; the loop `return`s there exactly
when the quota is reached on its last entry. -/
theorem scrapeEntries_append_all (w : World) (lab : String) (es : List Entry) :
    ∀ (st : St) (a : Nat),
      (∀ e ∈ es, e.link ≠ "" ∧ MIN_TEXT_LEN ≤ (entryText w e).length) →
      (st.seen ++ es.map (entryId w)).Nodup →
      a + es.length ≤ TARGET_PER_LABEL →
      ∃ st' : St,
        scrapeEntries w lab es st a =
          ⟨st', a + es.length, !es.isEmpty && decide (TARGET_PER_LABEL ≤ a + es.length)⟩ ∧
        st'.seen = st.seen ++ es.map (entryId w) ∧
        st'.log.map (fun r => r.id) = st.log.map (fun r => r.id) ++ es.map (entryId w) ∧
        st'.fetched = st.fetched := by
  induction es with
  | nil =>
    intro st a _ _ _
    exact ⟨st, by simp [scrapeEntries], by simp, by simp, rfl⟩
  | cons e es ih =>
    intro st a hadm hnd hquota
    have hT : ¬ TARGET_PER_LABEL ≤ a := by
      simp only [List.length_cons] at hquota
      omega
    obtain ⟨hlink, htext⟩ := hadm e (List.mem_cons_self e es)
    have hfresh : entryId w e ∉ st.seen := by
      intro hmem
      rw [List.nodup_append] at hnd
      exact hnd.2.2 hmem (by simp)
    have hsome : entryRow w lab st e ≠ none := by
      intro hnone
      rw [entryRow_none_iff] at hnone
      rcases hnone with h | h | h
      · exact hlink h
      · exact hfresh h
      · exact Nat.not_lt_of_le htext h
    obtain ⟨row, hrow⟩ := Option.ne_none_iff_exists'.1 hsome
    obtain ⟨hid, _, _, _, _⟩ := entryRow_some_spec w lab st e row hrow
    by_cases hT2 : TARGET_PER_LABEL ≤ a + 1
    · have hlen0 : es.length = 0 := by
        simp only [List.length_cons] at hquota
        omega
      have hes : es = [] := List.length_eq_zero.1 hlen0
      subst hes
      refine ⟨⟨st.log ++ [row], st.seen ++ [row.id], st.fetched⟩, ?_, by simp [hid],
        by simp [hid], rfl⟩
      simp only [scrapeEntries, if_neg hT, hrow, if_pos hT2]
      simp only [List.length_cons, List.length_nil, List.isEmpty_cons, Bool.not_false,
        Bool.true_and]
      rw [decide_eq_true (by omega : TARGET_PER_LABEL ≤ a + 1)]
    · have hstep : scrapeEntries w lab (e :: es) st a =
          scrapeEntries w lab es ⟨st.log ++ [row], st.seen ++ [row.id], st.fetched⟩ (a + 1) := by
        simp only [scrapeEntries, if_neg hT, hrow, if_neg hT2]
      obtain ⟨st', ih1, ih2, ih3, ih4⟩ := ih
        ⟨st.log ++ [row], st.seen ++ [row.id], st.fetched⟩ (a + 1)
        (fun x hx => hadm x (List.mem_cons_of_mem e hx))
        (by simpa [hid, List.append_assoc] using hnd)
        (by simp only [List.length_cons] at hquota ⊢; omega)
      refine ⟨st', ?_, ?_, ?_, ih4⟩
      · rw [hstep, ih1]
        have hlen : a + (e :: es).length = a + 1 + es.length := by
          simp only [List.length_cons]
          omega
        rw [hlen]
        by_cases hes : es.isEmpty
        · have : es = [] := by
            cases es
            · rfl
            · simp at hes
          subst this
          simp only [List.isEmpty_nil, Bool.not_true, Bool.false_and, List.isEmpty_cons,
            Bool.not_false, Bool.true_and, List.length_nil, Nat.add_zero]
          rw [decide_eq_false hT2]
        · have hne : es ≠ [] := by
            cases es
            · simp at hes
            · simp
          simp only [List.isEmpty_cons, Bool.not_false, Bool.true_and]
          cases es
          · simp at hne
          · simp only [List.isEmpty_cons, Bool.not_false, Bool.true_and]
      · rw [ih2]
        simp [hid, List.append_assoc]
      · rw [ih3]
        simp [hid, List.append_assoc]

/-- Quota accounting for the entry loop, started under the quota: the
counter never exceeds the quota; an early `return` happens exactly when the
counter reaches the quota. -/
theorem scrapeEntries_quota (w : World) (lab : String) (es : List Entry) :
    ∀ (st : St) (a : Nat), a < TARGET_PER_LABEL →
      (scrapeEntries w lab es st a).added ≤ TARGET_PER_LABEL ∧
      ((scrapeEntries w lab es st a).stopped = true →
        (scrapeEntries w lab es st a).added = TARGET_PER_LABEL) ∧
      ((scrapeEntries w lab es st a).stopped = false →
        (scrapeEntries w lab es st a).added < TARGET_PER_LABEL) := by
  induction es with
  | nil =>
    intro st a hT
    refine ⟨?_, ?_, ?_⟩ <;> simp only [scrapeEntries]
    · exact Nat.le_of_lt hT
    · intro h
      cases h
    · intro _
      exact hT
  | cons e es ih =>
    intro st a hT
    have hT' : ¬ TARGET_PER_LABEL ≤ a := Nat.not_le_of_lt hT
    cases hrow : entryRow w lab st e with
    | none =>
      simp only [scrapeEntries, if_neg hT', hrow]
      exact ih st a hT
    | some row =>
      by_cases hT2 : TARGET_PER_LABEL ≤ a + 1
      · simp only [scrapeEntries, if_neg hT', hrow, if_pos hT2]
        have : a + 1 = TARGET_PER_LABEL := by omega
        exact ⟨by omega, fun _ => this, by intro h; cases h⟩
      · simp only [scrapeEntries, if_neg hT', hrow, if_neg hT2]
        exact ih _ (a + 1) (by omega)

/-- Rerunning the entry loop after a completed (non-`return`ing) pass, with a
ledger containing everything the first pass saw, appends nothing: state and
counter are untouched. -/
theorem scrapeEntries_stable (w : World) (lab : String) (es : List Entry) :
    ∀ (st₁ : St) (a₁ : Nat) (st₂ : St) (a₂ : Nat),
      (scrapeEntries w lab es st₁ a₁).stopped = false →
      (scrapeEntries w lab es st₁ a₁).st.seen ⊆ st₂.seen →
      a₂ < TARGET_PER_LABEL →
      scrapeEntries w lab es st₂ a₂ = ⟨st₂, a₂, false⟩ := by
  induction es with
  | nil =>
    intro st₁ a₁ st₂ a₂ _ _ _
    rfl
  | cons e es ih =>
    intro st₁ a₁ st₂ a₂ hflag hsub hT₂
    by_cases hT : TARGET_PER_LABEL ≤ a₁
    · simp only [scrapeEntries, if_pos hT] at hflag
      cases hflag
    · cases hrow : entryRow w lab st₁ e with
      | none =>
        simp only [scrapeEntries, if_neg hT, hrow] at hflag hsub
        have hsub₁ : st₁.seen ⊆ st₂.seen :=
          fun x hx => hsub (scrapeEntries_seen_sub w lab es st₁ a₁ hx)
        have hrow₂ : entryRow w lab st₂ e = none :=
          entryRow_none_stable w lab st₁ st₂ e hsub₁ hrow
        simp only [scrapeEntries, if_neg (Nat.not_le_of_lt hT₂), hrow₂]
        exact ih st₁ a₁ st₂ a₂ hflag hsub hT₂
      | some row =>
        obtain ⟨hid, _, _, _, _⟩ := entryRow_some_spec w lab st₁ e row hrow
        by_cases hT2 : TARGET_PER_LABEL ≤ a₁ + 1
        · simp only [scrapeEntries, if_neg hT, hrow, if_pos hT2] at hflag
          cases hflag
        · simp only [scrapeEntries, if_neg hT, hrow, if_neg hT2] at hflag hsub
          have hmem : entryId w e ∈ st₂.seen := by
            apply hsub
            apply scrapeEntries_seen_sub w lab es _ (a₁ + 1)
            rw [← hid]
            simp
          have hrow₂ : entryRow w lab st₂ e = none :=
            entryRow_none_of_seen w lab st₂ e hmem
          simp only [scrapeEntries, if_neg (Nat.not_le_of_lt hT₂), hrow₂]
          exact ih _ _ st₂ a₂ hflag hsub hT₂

/-! ## The query loop -/

theorem scrapeQueries_shape (w : World) (lab : String) (qs : List String) :
    ∀ (st : St) (a : Nat), ∃ (Δ : List Rec) (us : List String),
      (scrapeQueries w lab qs st a).st.log = st.log ++ Δ ∧
      (scrapeQueries w lab qs st a).st.seen = st.seen ++ Δ.map (fun r => r.id) ∧
      (scrapeQueries w lab qs st a).st.fetched = st.fetched ++ us ∧
      (scrapeQueries w lab qs st a).added = a + Δ.length ∧
      (∀ r ∈ Δ, r.label = lab ∧ MIN_TEXT_LEN ≤ r.text.length ∧ r.id ∉ st.seen) ∧
      (st.seen.Nodup → (st.seen ++ Δ.map (fun r => r.id)).Nodup) := by
  induction qs with
  | nil =>
    intro st a
    exact ⟨[], [], by simp [scrapeQueries]⟩
  | cons q qs ih =>
    intro st a
    have hst1 :
        scrapeQueries w lab (q :: qs) st a =
          (let r := scrapeEntries w lab (w.feeds (google_news_rss_url q))
            ⟨st.log, st.seen, st.fetched ++ [google_news_rss_url q]⟩ a
           if r.stopped then r else scrapeQueries w lab qs r.st r.added) := rfl
    obtain ⟨Δ₁, e1, e2, e3, e4, e5, e6⟩ :=
      scrapeEntries_shape w lab (w.feeds (google_news_rss_url q))
        ⟨st.log, st.seen, st.fetched ++ [google_news_rss_url q]⟩ a
    simp only at e1 e2 e3 e4 e5 e6
    set r := scrapeEntries w lab (w.feeds (google_news_rss_url q))
      ⟨st.log, st.seen, st.fetched ++ [google_news_rss_url q]⟩ a with hr
    by_cases hstop : r.stopped
    · refine ⟨Δ₁, [google_news_rss_url q], ?_⟩
      rw [hst1]
      simp only [if_pos hstop]
      exact ⟨e1, e2, e3, e4, e5, e6⟩
    · obtain ⟨Δ₂, us₂, f1, f2, f3, f4, f5, f6⟩ := ih r.st r.added
      refine ⟨Δ₁ ++ Δ₂, google_news_rss_url q :: us₂, ?_, ?_, ?_, ?_, ?_, ?_⟩
      · rw [hst1]
        simp only [if_neg hstop]
        rw [f1, e1, List.append_assoc]
      · rw [hst1]
        simp only [if_neg hstop]
        rw [f2, e2, List.map_append, List.append_assoc]
      · rw [hst1]
        simp only [if_neg hstop]
        rw [f3, e3, List.append_assoc]
        rfl
      · rw [hst1]
        simp only [if_neg hstop]
        rw [f4, e4, List.length_append]
        omega
      · intro x hx
        rcases List.mem_append.1 hx with hx | hx
        · exact e5 x hx
        · obtain ⟨p1, p2, p3⟩ := f5 x hx
          refine ⟨p1, p2, fun hmem => p3 ?_⟩
          rw [e2]
          exact List.mem_append_left _ hmem
      · intro hnd
        have := f6 (by rw [e2] at *; exact e6 hnd)
        rw [e2, List.append_assoc, ← List.map_append] at this
        exact this

theorem scrapeQueries_seen_sub (w : World) (lab : String) (qs : List String) (st : St) (a : Nat) :
    st.seen ⊆ (scrapeQueries w lab qs st a).st.seen := by
  obtain ⟨Δ, us, _, h2, _⟩ := scrapeQueries_shape w lab qs st a
  rw [h2]
  exact fun x hx => List.mem_append_left _ hx

/-- Queries whose feeds are all empty just accumulate fetches. -/
theorem scrapeQueries_empty_feeds (w : World) (lab : String) (qs : List String) :
    ∀ (st : St) (a : Nat), (∀ q ∈ qs, w.feeds (google_news_rss_url q) = []) →
      scrapeQueries w lab qs st a =
        ⟨⟨st.log, st.seen, st.fetched ++ qs.map google_news_rss_url⟩, a, false⟩ := by
  induction qs with
  | nil =>
    intro st a _
    simp [scrapeQueries]
  | cons q qs ih =>
    intro st a h
    have hq : w.feeds (google_news_rss_url q) = [] := h q (List.mem_cons_self q qs)
    have hstep : scrapeQueries w lab (q :: qs) st a =
        scrapeQueries w lab qs ⟨st.log, st.seen, st.fetched ++ [google_news_rss_url q]⟩ a := by
      simp [scrapeQueries, hq, scrapeEntries]
    rw [hstep, ih _ a (fun x hx => h x (List.mem_cons_of_mem q hx))]
    simp [List.append_assoc]

/-- Quota accounting for the query loop (claim C8): started under the quota,
the counter never exceeds the quota; when the label `return`s early the
counter is exactly the quota and only the feeds up to and including the
`return`ing query were fetched — the remaining queries' feeds are untouched;
when it does not `return`, every query's feed was fetched. -/
theorem scrapeQueries_quota (w : World) (lab : String) (qs : List String) :
    ∀ (st : St) (a : Nat), a < TARGET_PER_LABEL →
      (scrapeQueries w lab qs st a).added ≤ TARGET_PER_LABEL ∧
      ((scrapeQueries w lab qs st a).stopped = true →
        (scrapeQueries w lab qs st a).added = TARGET_PER_LABEL ∧
        ∃ qs₁ q qs₂, qs = qs₁ ++ q :: qs₂ ∧
          (scrapeQueries w lab qs st a).st.fetched =
            st.fetched ++ (qs₁ ++ [q]).map google_news_rss_url) ∧
      ((scrapeQueries w lab qs st a).stopped = false →
        (scrapeQueries w lab qs st a).st.fetched =
          st.fetched ++ qs.map google_news_rss_url) := by
  induction qs with
  | nil =>
    intro st a hT
    refine ⟨Nat.le_of_lt hT, ?_, ?_⟩ <;> simp [scrapeQueries]
  | cons q qs ih =>
    intro st a hT
    have hst1 :
        scrapeQueries w lab (q :: qs) st a =
          (let r := scrapeEntries w lab (w.feeds (google_news_rss_url q))
            ⟨st.log, st.seen, st.fetched ++ [google_news_rss_url q]⟩ a
           if r.stopped then r else scrapeQueries w lab qs r.st r.added) := rfl
    set r := scrapeEntries w lab (w.feeds (google_news_rss_url q))
      ⟨st.log, st.seen, st.fetched ++ [google_news_rss_url q]⟩ a with hr
    obtain ⟨q1, q2, q3⟩ := scrapeEntries_quota w lab (w.feeds (google_news_rss_url q))
      ⟨st.log, st.seen, st.fetched ++ [google_news_rss_url q]⟩ a hT
    have hfet : r.st.fetched = st.fetched ++ [google_news_rss_url q] :=
      scrapeEntries_fetched w lab _ _ a
    by_cases hstop : r.stopped
    · rw [hst1]
      simp only [if_pos hstop]
      refine ⟨q1, ?_, ?_⟩
      · intro _
        refine ⟨q2 hstop, [], q, qs, rfl, ?_⟩
        simpa using hfet
      · intro hc
        rw [hstop] at hc
        cases hc
    · have hlt : r.added < TARGET_PER_LABEL := q3 (Bool.not_eq_true _ ▸ hstop)
      obtain ⟨i1, i2, i3⟩ := ih r.st r.added hlt
      rw [hst1]
      simp only [if_neg hstop]
      refine ⟨i1, ?_, ?_⟩
      · intro hs
        obtain ⟨ia, qs₁, q', qs₂, hsplit, hfetched⟩ := i2 hs
        refine ⟨ia, q :: qs₁, q', qs₂, by rw [hsplit]; simp, ?_⟩
        rw [hfetched, hfet]
        simp [List.append_assoc]
      · intro hs
        rw [i3 hs, hfet]
        simp [List.append_assoc]

/-- Rerunning the query loop after a completed first pass, against a ledger
containing everything that pass saw: nothing is appended, the counter stays
put, only the fetch trace grows (every feed is re-fetched). -/
theorem scrapeQueries_stable (w : World) (lab : String) (qs : List String) :
    ∀ (st₁ : St) (a₁ : Nat) (st₂ : St) (a₂ : Nat),
      (scrapeQueries w lab qs st₁ a₁).stopped = false →
      (scrapeQueries w lab qs st₁ a₁).st.seen ⊆ st₂.seen →
      a₂ < TARGET_PER_LABEL →
      scrapeQueries w lab qs st₂ a₂ =
        ⟨⟨st₂.log, st₂.seen, st₂.fetched ++ qs.map google_news_rss_url⟩, a₂, false⟩ := by
  induction qs with
  | nil =>
    intro st₁ a₁ st₂ a₂ _ _ _
    simp [scrapeQueries]
  | cons q qs ih =>
    intro st₁ a₁ st₂ a₂ hflag hsub hT₂
    have hst1 :
        scrapeQueries w lab (q :: qs) st₁ a₁ =
          (let r := scrapeEntries w lab (w.feeds (google_news_rss_url q))
            ⟨st₁.log, st₁.seen, st₁.fetched ++ [google_news_rss_url q]⟩ a₁
           if r.stopped then r else scrapeQueries w lab qs r.st r.added) := rfl
    set r := scrapeEntries w lab (w.feeds (google_news_rss_url q))
      ⟨st₁.log, st₁.seen, st₁.fetched ++ [google_news_rss_url q]⟩ a₁ with hr
    by_cases hstop : r.stopped
    · rw [hst1] at hflag
      simp only [if_pos hstop] at hflag
      rw [hflag] at hstop
      cases hstop
    · rw [hst1] at hflag hsub
      simp only [if_neg hstop] at hflag hsub
      have hstop' : r.stopped = false := Bool.not_eq_true _ ▸ hstop
      have hsub₁ : r.st.seen ⊆ st₂.seen :=
        fun x hx => hsub (scrapeQueries_seen_sub w lab qs r.st r.added hx)
      have hent : scrapeEntries w lab (w.feeds (google_news_rss_url q))
          ⟨st₂.log, st₂.seen, st₂.fetched ++ [google_news_rss_url q]⟩ a₂ =
          ⟨⟨st₂.log, st₂.seen, st₂.fetched ++ [google_news_rss_url q]⟩, a₂, false⟩ :=
        scrapeEntries_stable w lab _ _ a₁ _ a₂ hstop' hsub₁ hT₂
      have hstep : scrapeQueries w lab (q :: qs) st₂ a₂ =
          scrapeQueries w lab qs
            ⟨st₂.log, st₂.seen, st₂.fetched ++ [google_news_rss_url q]⟩ a₂ := by
        simp [scrapeQueries, hent]
      rw [hstep, ih r.st r.added
        ⟨st₂.log, st₂.seen, st₂.fetched ++ [google_news_rss_url q]⟩ a₂ hflag hsub hT₂]
      simp [List.append_assoc]

/-! ## The label loop -/

theorem runLabels_shape (w : World) (cat : List (String × List String)) :
    ∀ st : St, ∃ (Δ : List Rec) (us : List String),
      (runLabels w cat st).st.log = st.log ++ Δ ∧
      (runLabels w cat st).st.seen = st.seen ++ Δ.map (fun r => r.id) ∧
      (runLabels w cat st).st.fetched = st.fetched ++ us ∧
      (runLabels w cat st).total = Δ.length ∧
      (∀ r ∈ Δ, MIN_TEXT_LEN ≤ r.text.length) ∧
      (st.seen.Nodup → (st.seen ++ Δ.map (fun r => r.id)).Nodup) := by
  induction cat with
  | nil =>
    intro st
    exact ⟨[], [], by simp [runLabels]⟩
  | cons p cat ih =>
    intro st
    obtain ⟨lab, qs⟩ := p
    obtain ⟨Δ₁, us₁, e1, e2, e3, e4, e5, e6⟩ := scrapeQueries_shape w lab qs st 0
    obtain ⟨Δ₂, us₂, f1, f2, f3, f4, f5, f6⟩ := ih (scrape_label w lab qs st).st
    refine ⟨Δ₁ ++ Δ₂, us₁ ++ us₂, ?_, ?_, ?_, ?_, ?_, ?_⟩ <;>
      simp only [runLabels, scrape_label] at *
    · rw [f1, e1, List.append_assoc]
    · rw [f2, e2, List.map_append, List.append_assoc]
    · rw [f3, e3, List.append_assoc]
    · rw [f4, e4, List.length_append]
      omega
    · intro x hx
      rcases List.mem_append.1 hx with hx | hx
      · exact (e5 x hx).2.1
      · exact (f5 x hx)
    · intro hnd
      have := f6 (by rw [e2]; exact e6 hnd)
      rw [e2, List.append_assoc, ← List.map_append] at this
      exact this

theorem runLabels_seen_sub (w : World) (cat : List (String × List String)) (st : St) :
    st.seen ⊆ (runLabels w cat st).st.seen := by
  obtain ⟨Δ, us, _, h2, _⟩ := runLabels_shape w cat st
  rw [h2]
  exact fun x hx => List.mem_append_left _ hx

/-- A second pass over the catalog, against a ledger containing everything a
completed (never-`return`ing) first pass saw, appends nothing. -/
theorem runLabels_stable (w : World) (cat : List (String × List String)) :
    ∀ (st₁ st₂ : St),
      (∀ f ∈ (runLabels w cat st₁).flags, f = false) →
      (runLabels w cat st₁).st.seen ⊆ st₂.seen →
      (runLabels w cat st₂).total = 0 ∧
      (runLabels w cat st₂).st.log = st₂.log ∧
      (runLabels w cat st₂).st.seen = st₂.seen := by
  induction cat with
  | nil =>
    intro st₁ st₂ _ _
    exact ⟨rfl, rfl, rfl⟩
  | cons p cat ih =>
    intro st₁ st₂ hflags hsub
    obtain ⟨lab, qs⟩ := p
    have hflag₁ : (scrape_label w lab qs st₁).stopped = false := by
      apply hflags
      simp [runLabels]
    have hflags' : ∀ f ∈ (runLabels w cat (scrape_label w lab qs st₁).st).flags, f = false := by
      intro f hf
      apply hflags
      simp only [runLabels]
      exact List.mem_cons_of_mem _ hf
    have hsubq : (scrape_label w lab qs st₁).st.seen ⊆ st₂.seen := by
      intro x hx
      apply hsub
      simp only [runLabels]
      exact runLabels_seen_sub w cat (scrape_label w lab qs st₁).st hx
    have hq : scrapeQueries w lab qs st₂ 0 =
        ⟨⟨st₂.log, st₂.seen, st₂.fetched ++ qs.map google_news_rss_url⟩, 0, false⟩ :=
      scrapeQueries_stable w lab qs st₁ 0 st₂ 0 hflag₁ hsubq (by decide)
    have hsub' : (runLabels w cat (scrape_label w lab qs st₁).st).st.seen ⊆
        (⟨st₂.log, st₂.seen, st₂.fetched ++ qs.map google_news_rss_url⟩ : St).seen := by
      intro x hx
      apply hsub
      simp only [runLabels]
      exact hx
    obtain ⟨i1, i2, i3⟩ := ih (scrape_label w lab qs st₁).st
      ⟨st₂.log, st₂.seen, st₂.fetched ++ qs.map google_news_rss_url⟩ hflags' hsub'
    refine ⟨?_, ?_, ?_⟩ <;> simp only [runLabels, scrape_label, hq]
    · rw [i1]
    · exact i2
    · exact i3

end GNscraper

namespace GNscraper

/-! ## Facts about the quota-counterexample world

The 451 entry ids are SHA-1 digests; their pairwise distinctness is
established by evaluation, through the `key8` fingerprints (a collision in
the ids would collide the fingerprints). -/

set_option maxRecDepth 100000 in
set_option maxHeartbeats 20000000 in
theorem cKey_chunk0 : (List.range' 0 91).map cKeyOf = cK0 := by decide

set_option maxRecDepth 100000 in
set_option maxHeartbeats 20000000 in
theorem cKey_chunk1 : (List.range' 91 90).map cKeyOf = cK1 := by decide

set_option maxRecDepth 100000 in
set_option maxHeartbeats 20000000 in
theorem cKey_chunk2 : (List.range' 181 90).map cKeyOf = cK2 := by decide

set_option maxRecDepth 100000 in
set_option maxHeartbeats 20000000 in
theorem cKey_chunk3 : (List.range' 271 90).map cKeyOf = cK3 := by decide

set_option maxRecDepth 100000 in
set_option maxHeartbeats 20000000 in
theorem cKey_chunk4 : (List.range' 361 90).map cKeyOf = cK4 := by decide

set_option maxRecDepth 100000 in
set_option maxHeartbeats 20000000 in
theorem cKeys_nodup : cKeys.Nodup := by decide

theorem cRange_split : List.range 451 =
    List.range' 0 91 ++ (List.range' 91 90 ++ (List.range' 181 90 ++
      (List.range' 271 90 ++ List.range' 361 90))) := by
  have h4 : List.range' 271 90 ++ List.range' 361 90 = List.range' 271 180 := by
    simpa using List.range'_append_1 271 90 90
  have h3 : List.range' 181 90 ++ List.range' 271 180 = List.range' 181 270 := by
    simpa using List.range'_append_1 181 90 180
  have h2 : List.range' 91 90 ++ List.range' 181 270 = List.range' 91 360 := by
    simpa using List.range'_append_1 91 90 270
  have h1 : List.range' 0 91 ++ List.range' 91 360 = List.range' 0 451 := by
    simpa using List.range'_append_1 0 91 360
  rw [List.range_eq_range', ← h1, ← h2, ← h3, ← h4]

theorem cKeys_eq : (List.range 451).map cKeyOf = cKeys := by
  rw [cRange_split]
  simp only [List.map_append]
  rw [cKey_chunk0, cKey_chunk1, cKey_chunk2, cKey_chunk3, cKey_chunk4]
  rfl

theorem cIds_map_eq :
    cEntries.map (entryId cWorld) = (List.range 451).map (fun k => stable_id (cUrl k)) := by
  rw [cEntries, List.map_map]
  exact List.map_congr_left (fun k _ => rfl)

theorem map_map_lambda {α β γ : Type} (f : α → β) (g : β → γ) (l : List α) :
    (l.map f).map g = l.map (fun x => g (f x)) := by
  rw [List.map_map]
  rfl

theorem cIds_nodup : (cEntries.map (entryId cWorld)).Nodup := by
  apply List.Nodup.of_map key8
  have h : (cEntries.map (entryId cWorld)).map key8 = (List.range 451).map cKeyOf := by
    rw [cIds_map_eq, map_map_lambda]
    exact List.map_congr_left (fun k _ => rfl)
  rw [h, cKeys_eq]
  exact cKeys_nodup

set_option maxRecDepth 10000 in
theorem clean_longText_len : (clean_text longText).length = 220 := by decide

theorem cEntries_adm :
    ∀ e ∈ cEntries, e.link ≠ "" ∧ MIN_TEXT_LEN ≤ (entryText cWorld e).length := by
  intro e he
  rw [cEntries, List.mem_map] at he
  obtain ⟨k, hk, rfl⟩ := he
  have hext : entryText cWorld (cEntry k) = clean_text longText := by
    show (if (clean_text longText).length < MIN_TEXT_LEN then entryFallback (cEntry k)
      else clean_text longText) = clean_text longText
    rw [clean_longText_len]
    norm_num [MIN_TEXT_LEN]
  constructor
  · intro hcon
    have hlen := congrArg String.length hcon
    rw [show (cEntry k).link = cUrl k from rfl, cUrl, String.length_append] at hlen
    have h18 : ("https://p.example/" : String).length = 18 := rfl
    have h0 : ("" : String).length = 0 := rfl
    rw [h18, h0] at hlen
    omega
  · rw [hext, clean_longText_len, MIN_TEXT_LEN]

/-- The business feed of `cWorld`. -/
theorem cWorld_feed : cWorld.feeds cFeedUrl = cEntries := by
  show (if cFeedUrl = cFeedUrl then cEntries else []) = cEntries
  rw [if_pos rfl]

set_option maxRecDepth 10000 in
theorem cWorld_bRest_feeds : ∀ q ∈ bRest, cWorld.feeds (google_news_rss_url q) = [] := by
  decide

set_option maxRecDepth 10000 in
theorem cWorld_catRest_feeds :
    ∀ p ∈ catRest, ∀ q ∈ p.2, cWorld.feeds (google_news_rss_url q) = [] := by
  decide

/-- Labels whose feeds are all empty leave the log, the ledger, the total
and the flags trivial; only the fetch trace grows. -/
theorem runLabels_empty_feeds (w : World) (cat : List (String × List String)) :
    ∀ st : St, (∀ p ∈ cat, ∀ q ∈ p.2, w.feeds (google_news_rss_url q) = []) →
      ∃ us, runLabels w cat st =
        ⟨⟨st.log, st.seen, st.fetched ++ us⟩, 0, List.replicate cat.length false⟩ := by
  induction cat with
  | nil =>
    intro st _
    exact ⟨[], by simp [runLabels]⟩
  | cons p cat ih =>
    intro st h
    obtain ⟨lab, qs⟩ := p
    have hq := scrapeQueries_empty_feeds w lab qs st 0
      (fun q hq => h (lab, qs) (List.mem_cons_self _ _) q hq)
    obtain ⟨us, hrest⟩ := ih ⟨st.log, st.seen, st.fetched ++ qs.map google_news_rss_url⟩
      (fun p hp => h p (List.mem_cons_of_mem _ hp))
    refine ⟨qs.map google_news_rss_url ++ us, ?_⟩
    simp only [runLabels, scrape_label, hq, hrest]
    simp [List.append_assoc, List.replicate_succ]

theorem es450_len : es450.length = 450 := by
  simp [es450]

theorem cEntries_split : cEntries = es450 ++ [cEntry 450] := by
  rw [cEntries, es450, show (451 : Nat) = 450 + 1 from rfl, List.range_succ, List.map_append]
  rfl

theorem cIds450_eq : cIds450 = es450.map (entryId cWorld) := rfl

theorem cIds_split :
    cEntries.map (entryId cWorld) = cIds450 ++ [entryId cWorld (cEntry 450)] := by
  rw [cEntries_split, List.map_append, cIds450_eq]
  rfl

theorem cIds450_nodup : cIds450.Nodup := by
  have := cIds_nodup
  rw [cIds_split] at this
  exact (List.Nodup.of_append_left this)

theorem es450_adm :
    ∀ e ∈ es450, e.link ≠ "" ∧ MIN_TEXT_LEN ≤ (entryText cWorld e).length := by
  intro e he
  apply cEntries_adm
  rw [cEntries_split]
  exact List.mem_append_left _ he

theorem es450_not_empty : es450.isEmpty = false := by
  cases h : es450 with
  | nil =>
    have := es450_len
    rw [h] at this
    simp at this
  | cons x xs => rfl

/-- One query step, when the entry loop `return`s. -/
theorem scrapeQueries_cons_stop (w : World) (lab q : String) (qs : List String)
    (st : St) (a : Nat) (st' : St) (a' : Nat)
    (h : scrapeEntries w lab (w.feeds (google_news_rss_url q))
      ⟨st.log, st.seen, st.fetched ++ [google_news_rss_url q]⟩ a = ⟨st', a', true⟩) :
    scrapeQueries w lab (q :: qs) st a = ⟨st', a', true⟩ := by
  have hst1 : scrapeQueries w lab (q :: qs) st a =
      (let r := scrapeEntries w lab (w.feeds (google_news_rss_url q))
        ⟨st.log, st.seen, st.fetched ++ [google_news_rss_url q]⟩ a
       if r.stopped then r else scrapeQueries w lab qs r.st r.added) := rfl
  rw [hst1, h]
  rfl

/-- One query step, when the entry loop completes. -/
theorem scrapeQueries_cons_cont (w : World) (lab q : String) (qs : List String)
    (st : St) (a : Nat) (st' : St) (a' : Nat)
    (h : scrapeEntries w lab (w.feeds (google_news_rss_url q))
      ⟨st.log, st.seen, st.fetched ++ [google_news_rss_url q]⟩ a = ⟨st', a', false⟩) :
    scrapeQueries w lab (q :: qs) st a = scrapeQueries w lab qs st' a' := by
  have hst1 : scrapeQueries w lab (q :: qs) st a =
      (let r := scrapeEntries w lab (w.feeds (google_news_rss_url q))
        ⟨st.log, st.seen, st.fetched ++ [google_news_rss_url q]⟩ a
       if r.stopped then r else scrapeQueries w lab qs r.st r.added) := rfl
  rw [hst1, h]
  rfl

/-- One label step of the label loop. -/
theorem runLabels_cons (w : World) (lab : String) (qs : List String)
    (rest : List (String × List String)) (st : St) :
    runLabels w ((lab, qs) :: rest) st =
      ⟨(runLabels w rest (scrape_label w lab qs st).st).st,
       (scrape_label w lab qs st).added +
         (runLabels w rest (scrape_label w lab qs st).st).total,
       (scrape_label w lab qs st).stopped ::
         (runLabels w rest (scrape_label w lab qs st).st).flags⟩ := rfl

/-- Run 1 over the counterexample world: the business label appends the
first 450 entries, hits the quota, and `return`s; every other feed is
empty. -/
theorem cRun1_business :
    ∃ stA : St, scrape_label cWorld "business" bQueries (mkStart []) = ⟨stA, 450, true⟩ ∧
      stA.seen = cIds450 ∧ stA.log.map (fun r => r.id) = cIds450 := by
  obtain ⟨stA, hA, hAseen, hAlog, hAfetch⟩ :=
    scrapeEntries_append_all cWorld "business" es450 ⟨[], [], [cFeedUrl]⟩ 0
      es450_adm
      (by
        simp only [List.nil_append]
        exact cIds450_eq ▸ cIds450_nodup)
      (by rw [es450_len, TARGET_PER_LABEL])
  have hA' : scrapeEntries cWorld "business" es450 ⟨[], [], [cFeedUrl]⟩ 0 =
      ⟨stA, 450, true⟩ := by
    rw [hA]
    simp [es450_len, es450_not_empty, TARGET_PER_LABEL]
  have hentries : scrapeEntries cWorld "business" cEntries ⟨[], [], [cFeedUrl]⟩ 0 =
      ⟨stA, 450, true⟩ := by
    rw [cEntries_split]
    exact scrapeEntries_append_stop cWorld "business" es450 [cEntry 450] _ 0 stA 450 hA'
  refine ⟨stA, ?_, ?_, ?_⟩
  · show scrapeQueries cWorld "business" (cQ1 :: bRest) (mkStart []) 0 = ⟨stA, 450, true⟩
    apply scrapeQueries_cons_stop
    rw [show google_news_rss_url cQ1 = cFeedUrl from rfl, cWorld_feed]
    show scrapeEntries cWorld "business" cEntries ⟨[], [], [cFeedUrl]⟩ 0 = ⟨stA, 450, true⟩
    exact hentries
  · rw [hAseen]
    simp [cIds450_eq]
  · rw [hAlog]
    simp [cIds450_eq]

theorem cRun1_spec :
    ∃ st1 : St, runModel cWorld (mkStart []) = ⟨st1, 450, true :: List.replicate 4 false⟩ ∧
      st1.seen = cIds450 ∧ st1.log.map (fun r => r.id) = cIds450 := by
  obtain ⟨stA, hlab, hseen, hlog⟩ := cRun1_business
  obtain ⟨us, hrest⟩ := runLabels_empty_feeds cWorld catRest stA cWorld_catRest_feeds
  refine ⟨⟨stA.log, stA.seen, stA.fetched ++ us⟩, ?_, hseen, hlog⟩
  rw [runModel, show LABEL_QUERIES = ("business", bQueries) :: catRest from rfl,
    runLabels_cons, hlab]
  rw [show (⟨stA, 450, true⟩ : ERes).st = stA from rfl, hrest]
  rfl

end GNscraper

namespace GNscraper

/-- Run 2 over the counterexample world, from any log whose ids are exactly
the 450 ids of run 1: the first 450 entries are all skipped (their ids are in
the ledger), the 451st — which run 1 never reached because of the quota —
is appended. -/
theorem cRun2_of_log (log1 : List Rec) (hlog : log1.map (fun r => r.id) = cIds450) :
    (runModel cWorld (mkStart log1)).total = 1 := by
  have hstart : mkStart log1 = ⟨log1, cIds450, []⟩ := by
    rw [mkStart, hlog]
  have hskip : scrapeEntries cWorld "business" es450 ⟨log1, cIds450, [cFeedUrl]⟩ 0 =
      ⟨⟨log1, cIds450, [cFeedUrl]⟩, 0, false⟩ := by
    apply scrapeEntries_skip_all
    · decide
    · intro e he
      apply entryRow_none_of_seen
      show entryId cWorld e ∈ cIds450
      rw [cIds450_eq]
      exact List.mem_map_of_mem _ he
  obtain ⟨stB, hB, hBseen, hBlog, hBfetch⟩ :=
    scrapeEntries_append_all cWorld "business" [cEntry 450] ⟨log1, cIds450, [cFeedUrl]⟩ 0
      (by
        intro e he
        rw [List.mem_singleton] at he
        subst he
        apply cEntries_adm
        rw [cEntries_split]
        exact List.mem_append_right _ (List.mem_singleton.2 rfl))
      (by
        have h := cIds_nodup
        rw [cIds_split] at h
        exact h)
      (by simp [TARGET_PER_LABEL])
  have hB' : scrapeEntries cWorld "business" [cEntry 450] ⟨log1, cIds450, [cFeedUrl]⟩ 0 =
      ⟨stB, 1, false⟩ := by
    rw [hB]
    simp [TARGET_PER_LABEL]
  have hentries2 : scrapeEntries cWorld "business" cEntries ⟨log1, cIds450, [cFeedUrl]⟩ 0 =
      ⟨stB, 1, false⟩ := by
    rw [cEntries_split,
      scrapeEntries_append_cont cWorld "business" es450 [cEntry 450] _ 0 _ 0 hskip]
    exact hB'
  have hent : scrapeEntries cWorld "business" (cWorld.feeds (google_news_rss_url cQ1))
      ⟨(⟨log1, cIds450, []⟩ : St).log, (⟨log1, cIds450, []⟩ : St).seen,
        (⟨log1, cIds450, []⟩ : St).fetched ++ [google_news_rss_url cQ1]⟩ 0 =
      ⟨stB, 1, false⟩ := by
    rw [show google_news_rss_url cQ1 = cFeedUrl from rfl, cWorld_feed]
    exact hentries2
  have hlab2 : scrape_label cWorld "business" bQueries (⟨log1, cIds450, []⟩ : St) =
      ⟨⟨stB.log, stB.seen, stB.fetched ++ bRest.map google_news_rss_url⟩, 1, false⟩ := by
    show scrapeQueries cWorld "business" (cQ1 :: bRest) (⟨log1, cIds450, []⟩ : St) 0 = _
    rw [scrapeQueries_cons_cont cWorld "business" cQ1 bRest _ 0 stB 1 hent]
    exact scrapeQueries_empty_feeds cWorld "business" bRest stB 1 cWorld_bRest_feeds
  obtain ⟨us2, hrest2⟩ := runLabels_empty_feeds cWorld catRest
    ⟨stB.log, stB.seen, stB.fetched ++ bRest.map google_news_rss_url⟩ cWorld_catRest_feeds
  rw [hstart, runModel, show LABEL_QUERIES = ("business", bQueries) :: catRest from rfl,
    runLabels_cons, hlab2,
    show (⟨⟨stB.log, stB.seen, stB.fetched ++ bRest.map google_news_rss_url⟩, 1, false⟩ :
      ERes).st = ⟨stB.log, stB.seen, stB.fetched ++ bRest.map google_news_rss_url⟩ from rfl,
    hrest2]
  rfl

/-- Ledger–log synchrony: if the ledger is exactly the ids of the log, this
is preserved by a whole run. -/
theorem runLabels_sync (w : World) (cat : List (String × List String)) (st : St)
    (h : st.seen = st.log.map (fun r => r.id)) :
    (runLabels w cat st).st.seen = (runLabels w cat st).st.log.map (fun r => r.id) := by
  obtain ⟨Δ, us, h1, h2, _⟩ := runLabels_shape w cat st
  rw [h1, h2, h, List.map_append]

end GNscraper

namespace GNscraper

/-- C1 (counterexample): running the pipeline twice against the unchanged
feed source `cWorld` (deterministic resolution and extraction) does NOT
append zero records on the second run. The first business feed holds 451
admissible entries with distinct ids; run 1 appends 450 and `return`s at the
quota, so run 2 — whose ledger is seeded from the log — skips those 450 but
appends the 451st. The claim's "second run adds zero" is false. -/
theorem c1_counterexample_second_run_appends :
    (runModel cWorld (mkStart (runModel cWorld (mkStart [])).st.log)).total = 1 ∧
    ¬ ((runModel cWorld (mkStart (runModel cWorld (mkStart [])).st.log)).total = 0) := by
  obtain ⟨st1, hrun1, hseen1, hlog1⟩ := cRun1_spec
  have h1 : (runModel cWorld (mkStart [])).st.log = st1.log := by
    rw [hrun1]
  rw [h1]
  have h2 := cRun2_of_log st1.log hlog1
  exact ⟨h2, by omega⟩

/-- C1 (amended): the ledger is seeded from the log and consulted before and
updated after every append, so a run never appends a record whose id is
already in the log — ids in the log stay pairwise distinct. Running the
pipeline twice against an unchanged feed source appends zero new records on
the second run **provided the first run never cut a label short at the
quota** (flags all false); without that proviso the second run may append
entries the first run never reached (see the counterexample). -/
theorem c1_amended_dedup_and_idempotence (w : World) (log0 : List Rec) :
    ((log0.map (fun r => r.id)).Nodup →
      (((runModel w (mkStart log0)).st.log).map (fun r => r.id)).Nodup) ∧
    ((∀ f ∈ (runModel w (mkStart log0)).flags, f = false) →
      (runModel w (mkStart (runModel w (mkStart log0)).st.log)).total = 0 ∧
      (runModel w (mkStart (runModel w (mkStart log0)).st.log)).st.log =
        (runModel w (mkStart log0)).st.log) := by
  have hsync0 : (mkStart log0).seen = (mkStart log0).log.map (fun r => r.id) := rfl
  have hs := runLabels_sync w LABEL_QUERIES (mkStart log0) hsync0
  constructor
  · intro hnd
    obtain ⟨Δ, us, h1, h2, h3, h4, h5, h6⟩ := runLabels_shape w LABEL_QUERIES (mkStart log0)
    have hseen_nodup : (runLabels w LABEL_QUERIES (mkStart log0)).st.seen.Nodup := by
      rw [h2]
      exact h6 hnd
    rw [runModel, ← hs]
    exact hseen_nodup
  · intro hflags
    have hsub : (runLabels w LABEL_QUERIES (mkStart log0)).st.seen ⊆
        (mkStart (runModel w (mkStart log0)).st.log).seen := by
      intro x hx
      show x ∈ (runModel w (mkStart log0)).st.log.map (fun r => r.id)
      rw [runModel, ← hs]
      exact hx
    obtain ⟨t0, tlog, _⟩ := runLabels_stable w LABEL_QUERIES (mkStart log0)
      (mkStart (runModel w (mkStart log0)).st.log) hflags hsub
    exact ⟨t0, tlog⟩

/-- Witness for the amended C1 at a concrete world (all feeds empty) and
empty starting log. -/
theorem c1_amended_witness :
    (((runModel wEmpty (mkStart [])).st.log).map (fun r => r.id)).Nodup ∧
    (runModel wEmpty (mkStart (runModel wEmpty (mkStart [])).st.log)).total = 0 :=
  ⟨(c1_amended_dedup_and_idempotence wEmpty []).1 (by decide),
   ((c1_amended_dedup_and_idempotence wEmpty []).2 (by decide)).1⟩

end GNscraper

namespace GNscraper

/-! ## Claim C2: minimum text length -/

theorem dedupAux_subset (ids : List String) (l : List Rec) :
    ∀ r ∈ dedupAux ids l, r ∈ l := by
  induction l generalizing ids with
  | nil =>
    intro r hr
    cases hr
  | cons x xs ih =>
    intro r hr
    simp only [dedupAux] at hr
    split_ifs at hr with hmem
    · exact List.mem_cons_of_mem x (ih ids r hr)
    · rcases List.mem_cons.1 hr with hr | hr
      · exact hr ▸ List.mem_cons_self x xs
      · exact List.mem_cons_of_mem x (ih _ r hr)

/-- C2: every record a run appends has `text` of length at least
`MIN_TEXT_LEN` (220) — the run's final log is the starting log plus a suffix
of such records — and therefore so does every row of a derived table built
from a log of such records (`text` is column 7). -/
theorem c2_min_text_invariant (w : World) (st : St) :
    (∃ Δ, (runModel w st).st.log = st.log ++ Δ ∧
      ∀ r ∈ Δ, MIN_TEXT_LEN ≤ r.text.length) ∧
    (∀ log : List Rec, (∀ r ∈ log, MIN_TEXT_LEN ≤ r.text.length) →
      ∀ row ∈ (drop_duplicates_by_id log).map toRow,
        MIN_TEXT_LEN ≤ (row.getD 7 "").length) := by
  constructor
  · obtain ⟨Δ, us, h1, _, _, _, h5, _⟩ := runLabels_shape w LABEL_QUERIES st
    exact ⟨Δ, h1, h5⟩
  · intro log hlog row hrow
    rw [List.mem_map] at hrow
    obtain ⟨r, hr, rfl⟩ := hrow
    have hmem : r ∈ log := dedupAux_subset [] log r hr
    have htext : (toRow r).getD 7 "" = r.text := rfl
    rw [htext]
    exact hlog r hmem

set_option maxRecDepth 10000 in
theorem c2_min_text_invariant_witness :
    MIN_TEXT_LEN ≤ ((toRow recLong).getD 7 "").length :=
  (c2_min_text_invariant wEmpty ⟨[], [], []⟩).2 [recLong] (by decide) (toRow recLong)
    (by decide)

/-! ## Claim C3: the resolver is total, degrades to identity, and returns a
non-empty string — the last part only for non-empty input -/

theorem canonHref_ne_empty : ∀ (c : Option (Option String)) (h : String),
    canonHref c = some h → h ≠ ""
  | none, h, hc => by simp [canonHref] at hc
  | some none, h, hc => by simp [canonHref] at hc
  | some (some x), h, hc => by
    simp only [canonHref] at hc
    split_ifs at hc with hx
    cases hc
    exact hx

theorem findAnchor_some (l : List String) (a : String) (h : findAnchor l = some a) :
    isCodeCandidate a = true := by
  induction l with
  | nil => cases h
  | cons x xs ih =>
    simp only [findAnchor] at h
    split_ifs at h with hx
    · cases h
      exact hx
    · exact ih h

theorem candidate_ne_empty (a : String) (h : isCodeCandidate a = true) : a ≠ "" := by
  intro heq
  subst heq
  exact absurd h (by decide)

/-- C3 (counterexample): on the empty input URL with a failed fetch the
function returns the input unchanged — the empty string — so "always
returns a non-empty string" fails as stated for every input. -/
theorem c3_resolve_counterexample :
    resolve_google_news_to_original "" none = "" ∧
    ¬ (∀ (url : String) (fetched : Option Doc),
        resolve_google_news_to_original url fetched ≠ "") :=
  ⟨rfl, fun h => h "" none rfl⟩

/-- C3 (amended): the resolver is a total function (the embedding of the
`try`/`except` body); on any exception it returns the input unchanged; on a
fetched page holding neither a truthy canonical href nor an anchor passing
the filter it also returns the input unchanged; and its result is non-empty
whenever the input is non-empty (each success branch returns a truthy
canonical href or an href starting with `"http"`). -/
theorem c3_resolve_amended (url : String) (fetched : Option Doc) :
    resolve_google_news_to_original url none = url ∧
    (∀ doc : Doc, canonHref doc.canonical = none → findAnchor doc.anchors = none →
      resolve_google_news_to_original url (some doc) = url) ∧
    (url ≠ "" → resolve_google_news_to_original url fetched ≠ "") := by
  refine ⟨rfl, ?_, ?_⟩
  · intro doc hc ha
    show (match canonHref doc.canonical with
      | some h => h
      | none =>
        match findAnchor doc.anchors with
        | some a => a
        | none => url) = url
    rw [hc, ha]
  · intro hne
    cases fetched with
    | none => exact hne
    | some doc =>
      show (match canonHref doc.canonical with
        | some h => h
        | none =>
          match findAnchor doc.anchors with
          | some a => a
          | none => url) ≠ ""
      cases hc : canonHref doc.canonical with
      | some h =>
        simp only
        exact canonHref_ne_empty doc.canonical h hc
      | none =>
        cases ha : findAnchor doc.anchors with
        | some a =>
          simp only
          exact candidate_ne_empty a (findAnchor_some doc.anchors a ha)
        | none =>
          simp only
          exact hne

theorem c3_resolve_amended_witness :
    (canonHref (Doc.mk (some (some "")) ["news.google.com/y"]).canonical = none ∧
      findAnchor (Doc.mk (some (some "")) ["news.google.com/y"]).anchors = none ∧
      resolve_google_news_to_original "https://news.google.com/x"
        (some (Doc.mk (some (some "")) ["news.google.com/y"])) = "https://news.google.com/x") ∧
    ("https://news.google.com/x" : String) ≠ "" ∧
    resolve_google_news_to_original "https://news.google.com/x" none ≠ "" :=
  ⟨⟨by decide, by decide,
      (c3_resolve_amended "https://news.google.com/x" none).2.1
        (Doc.mk (some (some "")) ["news.google.com/y"]) (by decide) (by decide)⟩,
    by decide,
    (c3_resolve_amended "https://news.google.com/x" none).2.2 (by decide)⟩

/-! ## Claim C4: the resolution algorithm on a fetched page -/

/-- C4 (counterexample): the code filters anchors by the substring test
`"news.google.com" not in href`, not by the host component. An external
anchor that merely mentions the aggregator in its query string is skipped by
the code (which then falls back to the input URL), while the spec's
algorithm returns it. -/
theorem c4_resolve_algorithm_counterexample :
    resolve_google_news_to_original "https://news.google.com/rss/x"
        (some ⟨none, ["https://example.com/a?from=news.google.com"]⟩) ≠
      specResolve "https://news.google.com/rss/x"
        ⟨none, ["https://example.com/a?from=news.google.com"]⟩ ∧
    resolve_google_news_to_original "https://news.google.com/rss/x"
        (some ⟨none, ["https://example.com/a?from=news.google.com"]⟩) =
      "https://news.google.com/rss/x" ∧
    specResolve "https://news.google.com/rss/x"
        ⟨none, ["https://example.com/a?from=news.google.com"]⟩ =
      "https://example.com/a?from=news.google.com" := by
  refine ⟨?_, ?_, ?_⟩ <;> decide

/-- C4 (amended): on a successfully fetched and parsed page the function
returns (a) the canonical href when present and non-empty, else (b) the
first anchor href that starts with the literal `"http"` and does not contain
the substring `"news.google.com"` anywhere in the URL, else (c) the input
URL. -/
theorem c4_resolve_algorithm_amended (url : String) (doc : Doc) :
    resolve_google_news_to_original url (some doc) =
      (match canonHref doc.canonical with
       | some h => h
       | none => (doc.anchors.find? isCodeCandidate).getD url) := by
  have hfind : ∀ l : List String, findAnchor l = l.find? isCodeCandidate := by
    intro l
    induction l with
    | nil => rfl
    | cons x xs ih =>
      simp only [findAnchor, List.find?]
      by_cases hx : isCodeCandidate x
      · rw [if_pos hx, hx]
      · rw [if_neg hx, Bool.of_not_eq_true hx, ih]
  show (match canonHref doc.canonical with
    | some h => h
    | none =>
      match findAnchor doc.anchors with
      | some a => a
      | none => url) = _
  cases hc : canonHref doc.canonical with
  | some h => simp only
  | none =>
    simp only [hfind]
    cases hf : doc.anchors.find? isCodeCandidate with
    | some a => simp only [Option.getD_some]
    | none => simp only [Option.getD_none]

/-! ## Claim C5: fallback text and discard of short entries -/

/-- C5: when the extracted text is below `MIN_TEXT_LEN` the record's text is
the whitespace-normalized fallback built from the title, a period and the summary; when that is also
below the minimum the entry is discarded — no append, ledger and counter
untouched — and the loop moves on. The second conjunct is the spec's
concrete scenario (title `"X"`, empty summary, extractor fails): store and
ledger unchanged, counter still zero. -/
theorem c5_short_fallback_discarded :
    (∀ (w : World) (lab : String) (e : Entry) (es : List Entry) (st : St) (a : Nat),
      a < TARGET_PER_LABEL →
      e.link ≠ "" →
      entryId w e ∉ st.seen →
      (extract_full_text w (entryOriginal w e)).length < MIN_TEXT_LEN →
      (entryFallback e).length < MIN_TEXT_LEN →
      scrapeEntries w lab (e :: es) st a = scrapeEntries w lab es st a ∧
      entryRow w lab st e = none ∧ entryText w e = entryFallback e) ∧
    scrapeEntries w5 "tech" [e5] ⟨[], [], []⟩ 0 = ⟨⟨[], [], []⟩, 0, false⟩ := by
  constructor
  · intro w lab e es st a hT hlink hfresh hshort hfall
    have htext : entryText w e = entryFallback e := by
      show (if (extract_full_text w (entryOriginal w e)).length < MIN_TEXT_LEN then
        entryFallback e else extract_full_text w (entryOriginal w e)) = entryFallback e
      rw [if_pos hshort]
    have hrow : entryRow w lab st e = none := by
      rw [entryRow_none_iff]
      refine Or.inr (Or.inr ?_)
      rw [htext]
      exact hfall
    refine ⟨?_, hrow, htext⟩
    simp only [scrapeEntries, if_neg (Nat.not_le_of_lt hT), hrow]
  · decide

theorem c5_short_fallback_discarded_witness :
    scrapeEntries w5 "tech" (e5 :: []) ⟨[], [], []⟩ 0 =
        scrapeEntries w5 "tech" [] ⟨[], [], []⟩ 0 ∧
    entryRow w5 "tech" ⟨[], [], []⟩ e5 = none ∧ entryText w5 e5 = entryFallback e5 :=
  c5_short_fallback_discarded.1 w5 "tech" e5 [] ⟨[], [], []⟩ 0 (by decide) (by decide)
    (by decide) (by decide) (by decide)

end GNscraper

namespace GNscraper

/-! ## Claim C6: rebuilding the derived table -/

theorem dedupAux_first_occurrence (l : List Rec) :
    ∀ (ids : List String), ∀ r ∈ dedupAux ids l,
      r.id ∉ ids ∧ l.find? (fun x => x.id == r.id) = some r := by
  induction l with
  | nil =>
    intro ids r hr
    cases hr
  | cons x xs ih =>
    intro ids r hr
    simp only [dedupAux] at hr
    split_ifs at hr with hmem
    · obtain ⟨hnotin, hfind⟩ := ih ids r hr
      have hne : x.id ≠ r.id := by
        intro he
        exact hnotin (he ▸ hmem)
      refine ⟨hnotin, ?_⟩
      rw [List.find?_cons_of_neg, hfind]
      simp [hne]
    · rcases List.mem_cons.1 hr with hr | hr
      · subst hr
        refine ⟨hmem, ?_⟩
        rw [List.find?_cons_of_pos]
        simp
      · obtain ⟨hnotin, hfind⟩ := ih (ids ++ [x.id]) r hr
        have hne : x.id ≠ r.id := by
          intro he
          apply hnotin
          rw [← he]
          simp
        refine ⟨fun hin => hnotin (List.mem_append_left _ hin), ?_⟩
        rw [List.find?_cons_of_neg, hfind]
        simp [hne]

theorem dedupAux_nodup (l : List Rec) :
    ∀ ids : List String, ((dedupAux ids l).map (fun r => r.id)).Nodup := by
  induction l with
  | nil =>
    intro ids
    simp [dedupAux]
  | cons x xs ih =>
    intro ids
    simp only [dedupAux]
    split_ifs with hmem
    · exact ih ids
    · simp only [List.map_cons, List.nodup_cons]
      refine ⟨?_, ih (ids ++ [x.id])⟩
      intro hin
      rw [List.mem_map] at hin
      obtain ⟨r, hr, hide⟩ := hin
      have := (dedupAux_first_occurrence xs (ids ++ [x.id]) r hr).1
      apply this
      rw [hide]
      simp

theorem dedupAux_complete (l : List Rec) :
    ∀ ids : List String, ∀ r ∈ l, r.id ∈ ids ∨ ∃ r' ∈ dedupAux ids l, r'.id = r.id := by
  induction l with
  | nil =>
    intro ids r hr
    cases hr
  | cons x xs ih =>
    intro ids r hr
    simp only [dedupAux]
    rcases List.mem_cons.1 hr with hr | hr
    · subst hr
      by_cases hmem : r.id ∈ ids
      · exact Or.inl hmem
      · rw [if_neg hmem]
        exact Or.inr ⟨r, List.mem_cons_self _ _, rfl⟩
    · by_cases hmem : x.id ∈ ids
      · rw [if_pos hmem]
        exact ih ids r hr
      · rw [if_neg hmem]
        rcases ih (ids ++ [x.id]) r hr with h | ⟨r', hr', he⟩
        · rcases List.mem_append.1 h with h | h
          · exact Or.inl h
          · rw [List.mem_singleton] at h
            exact Or.inr ⟨x, List.mem_cons_self _ _, h.symm⟩
        · exact Or.inr ⟨r', List.mem_cons_of_mem _ hr', he⟩

theorem dedupAux_id_of_nodup (l : List Rec) :
    ∀ ids : List String, (∀ r ∈ l, r.id ∉ ids) → ((l.map (fun r => r.id)).Nodup) →
      dedupAux ids l = l := by
  induction l with
  | nil =>
    intro ids _ _
    rfl
  | cons x xs ih =>
    intro ids hdis hnd
    simp only [List.map_cons, List.nodup_cons] at hnd
    simp only [dedupAux, if_neg (hdis x (List.mem_cons_self x xs))]
    congr 1
    apply ih
    · intro r hr hin
      rcases List.mem_append.1 hin with h | h
      · exact hdis r (List.mem_cons_of_mem x hr) h
      · rw [List.mem_singleton] at h
        exact hnd.1 (h ▸ List.mem_map_of_mem (fun r => r.id) hr)
    · exact hnd.2

/-- C6 (counterexample): rebuilding from an empty (or missing) log does not
write a snapshot — `rebuild_csv` returns before writing — so a stale prior
snapshot survives, where the claim requires a freshly written snapshot that
fully replaces it. -/
theorem c6_rebuild_counterexample :
    rebuild_csv [] (some [["stale"]]) = some [["stale"]] ∧
    rebuild_csv [] (some [["stale"]]) ≠ specRebuild [] := by
  refine ⟨rfl, ?_⟩
  decide

/-- C6 (amended): for a non-empty log, `rebuild_csv` writes header plus the
keep-first deduplication of the whole log, in the fixed column order,
replacing any prior snapshot (the result does not depend on it); for a
missing/empty log it returns without writing and the prior snapshot
survives. Deduplication keeps exactly the first record of each id: ids in
the result are pairwise distinct, every kept record is the `find?`-first
record of its id in the log, every log id is represented, and rebuilding is
idempotent. The log is never modified (`rebuild_csv` only reads it). -/
theorem c6_rebuild_amended :
    (∀ (log : List Rec) (csv : Option (List (List String))), log ≠ [] →
      rebuild_csv log csv = some (csvHeader :: (drop_duplicates_by_id log).map toRow)) ∧
    (∀ (log : List Rec) (csv : Option (List (List String))), log = [] →
      rebuild_csv log csv = csv) ∧
    (∀ log : List Rec, ((drop_duplicates_by_id log).map (fun r => r.id)).Nodup) ∧
    (∀ (log : List Rec) (r : Rec), r ∈ drop_duplicates_by_id log →
      log.find? (fun x => x.id == r.id) = some r) ∧
    (∀ (log : List Rec) (r : Rec), r ∈ log →
      ∃ r' ∈ drop_duplicates_by_id log, r'.id = r.id) ∧
    (∀ log : List Rec,
      drop_duplicates_by_id (drop_duplicates_by_id log) = drop_duplicates_by_id log) := by
  refine ⟨?_, ?_, ?_, ?_, ?_, ?_⟩
  · intro log csv hne
    rw [rebuild_csv, if_neg (by simpa using hne)]
  · intro log csv he
    subst he
    rfl
  · intro log
    exact dedupAux_nodup log []
  · intro log r hr
    exact (dedupAux_first_occurrence log [] r hr).2
  · intro log r hr
    rcases dedupAux_complete log [] r hr with h | h
    · cases h
    · exact h
  · intro log
    apply dedupAux_id_of_nodup
    · intro r _ hin
      cases hin
    · exact dedupAux_nodup log []

theorem c6_rebuild_amended_witness :
    rebuild_csv [mkrec "a", mkrec "b", mkrec "a"] none =
      some (csvHeader ::
        (drop_duplicates_by_id [mkrec "a", mkrec "b", mkrec "a"]).map toRow) :=
  c6_rebuild_amended.1 [mkrec "a", mkrec "b", mkrec "a"] none (by decide)

/-! ## Claim C9: loading the ledger skips unparseable lines -/

theorem loadSeenAux_spec (lines : List (Option (List (String × String)))) :
    ∀ seen : List String,
      (∀ v : String, v ∈ loadSeenAux seen lines ↔
        v ∈ seen ∨ v ∈ lines.filterMap lineId) ∧
      (seen.Nodup → (loadSeenAux seen lines).Nodup) := by
  induction lines with
  | nil =>
    intro seen
    simp [loadSeenAux]
  | cons l ls ih =>
    intro seen
    cases hl : lineId l with
    | none =>
      have hstep : loadSeenAux seen (l :: ls) = loadSeenAux seen ls := by
        simp only [loadSeenAux, hl]
      obtain ⟨ihm, ihn⟩ := ih seen
      constructor
      · intro v
        rw [hstep, ihm v, List.filterMap_cons, hl]
      · intro hnd
        rw [hstep]
        exact ihn hnd
    | some x =>
      have hstep : loadSeenAux seen (l :: ls) =
          loadSeenAux (if x ∈ seen then seen else seen ++ [x]) ls := by
        simp only [loadSeenAux, hl]
      obtain ⟨ihm, ihn⟩ := ih (if x ∈ seen then seen else seen ++ [x])
      constructor
      · intro v
        rw [hstep, ihm v, List.filterMap_cons, hl]
        constructor
        · rintro (hv | hv)
          · split_ifs at hv with hx
            · exact Or.inl hv
            · rcases List.mem_append.1 hv with hv | hv
              · exact Or.inl hv
              · rw [List.mem_singleton] at hv
                exact Or.inr (hv ▸ List.mem_cons_self _ _)
          · exact Or.inr (List.mem_cons_of_mem _ hv)
        · rintro (hv | hv)
          · left
            split_ifs with hx
            · exact hv
            · exact List.mem_append_left _ hv
          · rcases List.mem_cons.1 hv with hv | hv
            · left
              split_ifs with hx
              · exact hv ▸ hx
              · exact List.mem_append_right _ (by simp [hv])
            · exact Or.inr hv
      · intro hnd
        rw [hstep]
        apply ihn
        split_ifs with hx
        · exact hnd
        · rw [List.nodup_append]
          refine ⟨hnd, List.nodup_singleton _, ?_⟩
          intro a ha ha'
          rw [List.mem_singleton] at ha'
          exact hx (ha' ▸ ha)

/-- C9: loading the ledger is a total function of the lines' parse outcomes;
it returns exactly the `id` fields of the lines that parse as objects
carrying an `"id"` key (unparseable lines, non-objects, and objects without
an id — all swallowed by the bare `except` — contribute nothing), as a
duplicate-free set. -/
theorem c9_load_seen_ids (lines : List (Option (List (String × String)))) :
    (∀ v : String, v ∈ load_seen_ids lines ↔ v ∈ lines.filterMap lineId) ∧
    (load_seen_ids lines).Nodup := by
  obtain ⟨hm, hn⟩ := loadSeenAux_spec lines []
  constructor
  · intro v
    rw [load_seen_ids, hm v]
    simp
  · exact hn (List.nodup_nil)

end GNscraper

namespace GNscraper

/-! ## Claim C7: the identity function -/

theorem sha1words_length (m : List Nat) : (sha1words m).length = 5 := rfl

theorem wordHex_length (w : Nat) : (wordHex w).length = 8 := rfl

theorem hex_flatten_length (ws : List Nat) :
    ((ws.map wordHex).flatten).length = 8 * ws.length := by
  induction ws with
  | nil => rfl
  | cons w ws ih =>
    simp only [List.map_cons, List.flatten_cons, List.length_append, ih, wordHex_length,
      List.length_cons]
    omega

theorem stable_id_length (u : String) : (stable_id u).length = 40 := by
  show (((sha1words (strBytes u)).map wordHex).flatten).length = 40
  rw [hex_flatten_length, sha1words_length]

theorem hexDigitChar_mem (n : Nat) : hexDigitChar n ∈ hexChars := by
  have h : ∀ k, k < 16 → hexChars.getD k 'x' ∈ hexChars := by decide
  exact h (n % 16) (Nat.mod_lt n (by norm_num))

theorem stable_id_hex (u : String) : ∀ c ∈ (stable_id u).data, c ∈ hexChars := by
  intro c hc
  have hc' : c ∈ ((sha1words (strBytes u)).map wordHex).flatten := hc
  rw [List.mem_flatten] at hc'
  obtain ⟨l, hl, hcl⟩ := hc'
  rw [List.mem_map] at hl
  obtain ⟨w, _, rfl⟩ := hl
  simp only [wordHex, List.mem_cons, List.not_mem_nil, or_false] at hcl
  rcases hcl with h | h | h | h | h | h | h | h <;> (subst h; exact hexDigitChar_mem _)

theorem charToNibble_inj :
    ∀ a ∈ hexChars, ∀ b ∈ hexChars, charToNibble a = charToNibble b → a = b := by
  decide

/-- Two strings of length 40 made of hex digits with equal nibble readings
are equal. -/
theorem hex_string_ext (s t : String)
    (hs : s.length = 40) (ht : t.length = 40)
    (hsh : ∀ c ∈ s.data, c ∈ hexChars) (hth : ∀ c ∈ t.data, c ∈ hexChars)
    (h : ∀ i : Fin 40,
      charToNibble (s.data.getD i.val 'x') = charToNibble (t.data.getD i.val 'x')) :
    s = t := by
  have hds : s.data.length = 40 := hs
  have hdt : t.data.length = 40 := ht
  have hdata : s.data = t.data := by
    apply List.ext_getElem (by omega)
    intro i h1 h2
    have hi : i < 40 := by omega
    have := h ⟨i, hi⟩
    rw [List.getD_eq_getElem s.data 'x' (by omega),
      List.getD_eq_getElem t.data 'x' (by omega)] at this
    exact charToNibble_inj _ (hsh _ (List.getElem_mem h1)) _ (hth _ (List.getElem_mem h2)) this
  cases s
  cases t
  exact congrArg String.mk hdata

theorem aUrl_injective (m n : Nat) (h : aUrl m = aUrl n) : m = n := by
  have := congrArg String.length h
  simpa [aUrl, String.length] using this

/-- C7 (counterexample): `stable_id` cannot be injective — it maps the
unbounded space of URLs into strings of forty hex characters, a finite
range, so by pigeonhole two distinct URLs share an id. The claim's forward
direction (`identify(u1) = identify(u2)` implies `u1 = u2`) is therefore
false; collision-freeness can only ever be a probabilistic assumption. -/
theorem c7_identity_counterexample :
    ¬ (∀ u1 u2 : String, stable_id u1 = stable_id u2 ↔ u1 = u2) := by
  intro h
  obtain ⟨m, n, hmn, heq⟩ :=
    Finite.exists_ne_map_eq_of_infinite (fun k : Nat => hashNibbles (aUrl k))
  apply hmn
  have hids : stable_id (aUrl m) = stable_id (aUrl n) := by
    apply hex_string_ext _ _ (stable_id_length _) (stable_id_length _)
      (stable_id_hex _) (stable_id_hex _)
    intro i
    exact congrFun heq i
  exact aUrl_injective m n ((h (aUrl m) (aUrl n)).mp hids)

set_option maxRecDepth 100000 in
set_option maxHeartbeats 2000000 in
/-- C7 (amended): `stable_id` is deterministic (equal URLs give equal ids —
the claim's backward direction), performs no normalization (a trailing
slash yields a different id, as the spec itself documents), and always
yields a forty-hex-character digest. The forward direction (collision
freedom) is impossible in principle — see the counterexample. -/
theorem c7_identity_amended (u v : String) :
    (u = v → stable_id u = stable_id v) ∧
    (stable_id u).length = 40 ∧
    stable_id "http://a.com" ≠ stable_id "http://a.com/" := by
  refine ⟨fun h => by rw [h], stable_id_length u, ?_⟩
  decide

theorem c7_identity_amended_witness : stable_id "x" = stable_id "x" :=
  (c7_identity_amended "x" "x").1 rfl

end GNscraper

namespace GNscraper

/-! ## Claim C8: the per-label quota boundary -/

/-- C8: started under the quota, the running total never exceeds
`TARGET_PER_LABEL`; the quota is checked before and after each entry, so the
label `return`s exactly when the total reaches the quota (an entry-loop pass
that does not `return` ends strictly below it); and once the quota is
reached mid-catalog, the remaining queries' feeds are never fetched — the
fetch trace ends with the `return`ing query — while a label that never hits
the quota fetches every one of its feeds. -/
theorem c8_quota_boundary (w : World) (lab : String) (qs : List String)
    (st : St) (a : Nat) (hT : a < TARGET_PER_LABEL) :
    ((scrapeQueries w lab qs st a).added ≤ TARGET_PER_LABEL ∧
     ((scrapeQueries w lab qs st a).stopped = true →
       (scrapeQueries w lab qs st a).added = TARGET_PER_LABEL ∧
       ∃ qs₁ q qs₂, qs = qs₁ ++ q :: qs₂ ∧
         (scrapeQueries w lab qs st a).st.fetched =
           st.fetched ++ (qs₁ ++ [q]).map google_news_rss_url) ∧
     ((scrapeQueries w lab qs st a).stopped = false →
       (scrapeQueries w lab qs st a).st.fetched =
         st.fetched ++ qs.map google_news_rss_url)) ∧
    (∀ es : List Entry,
      (scrapeEntries w lab es st a).added ≤ TARGET_PER_LABEL ∧
      ((scrapeEntries w lab es st a).stopped = true →
        (scrapeEntries w lab es st a).added = TARGET_PER_LABEL) ∧
      ((scrapeEntries w lab es st a).stopped = false →
        (scrapeEntries w lab es st a).added < TARGET_PER_LABEL)) :=
  ⟨scrapeQueries_quota w lab qs st a hT, fun es => scrapeEntries_quota w lab es st a hT⟩

theorem c8_quota_boundary_witness :
    (scrapeQueries wEmpty "x" ["q"] ⟨[], [], []⟩ 0).added ≤ TARGET_PER_LABEL :=
  (c8_quota_boundary wEmpty "x" ["q"] ⟨[], [], []⟩ 0 (by decide)).1.1

/-! ## Claim C10: one ledger shared across all labels -/

set_option maxRecDepth 200000 in
set_option maxHeartbeats 4000000 in
/-- C10: a single ledger is threaded through all labels of a run, so a run
whose starting log has pairwise-distinct ids stores each id — hence each
resolved URL — in at most one record, under at most one label. Concretely
(second conjunct), in `w10` a business entry and a tech entry resolve to the
same publisher URL; business is first in catalog order, so the run's final
log from an empty store holds exactly one record for that URL, labelled
`"business"`. -/
theorem c10_shared_ledger :
    (∀ (w : World) (log0 : List Rec), (log0.map (fun r => r.id)).Nodup →
      ∀ r1 ∈ (runModel w (mkStart log0)).st.log,
        ∀ r2 ∈ (runModel w (mkStart log0)).st.log, r1.id = r2.id → r1 = r2) ∧
    ((runModel w10 (mkStart [])).st.log.map (fun r => r.label) = ["business"] ∧
     (runModel w10 (mkStart [])).st.log.map (fun r => r.url) = [storyUrl]) := by
  constructor
  · intro w log0 hnd r1 h1 r2 h2 hid
    have hsync0 : (mkStart log0).seen = (mkStart log0).log.map (fun r => r.id) := rfl
    have hs := runLabels_sync w LABEL_QUERIES (mkStart log0) hsync0
    obtain ⟨Δ, us, _, h2', _, _, _, h6⟩ := runLabels_shape w LABEL_QUERIES (mkStart log0)
    have hnodup : ((runModel w (mkStart log0)).st.log.map (fun r => r.id)).Nodup := by
      rw [runModel, ← hs, h2']
      exact h6 hnd
    exact List.inj_on_of_nodup_map hnodup h1 h2 hid
  · constructor
    · decide
    · decide

set_option maxRecDepth 20000 in
theorem c10_shared_ledger_witness : mkrec "a" = mkrec "a" :=
  c10_shared_ledger.1 wEmpty [mkrec "a", mkrec "b"] (by decide) (mkrec "a") (by decide)
    (mkrec "a") (by decide) rfl

end GNscraper
